import Mathlib

/-!
Verification of the ABC-notation tooling in `scripts/` (bar counting,
section combination, song consistency checking, section templates, and the
command-line exit-code conventions).

The Python code is shallowly embedded: text is `List Char`, files are passed
as their contents, and every function is an executable Lean `def` translated
line by line from the source (`abc_tools_old.py`, `section_tools.py`,
`build_song.py`).
-/

/-- Convert a string literal to the character-list representation used by the
embedding. -/
def s2l (s : String) : List Char := s.toList

/-- Characters removed by Python `str.strip()` (ASCII whitespace). -/
def isPySpace (c : Char) : Bool :=
  c = ' ' || c = '\t' || c = '\n' || c = '\x0b' || c = '\x0c' || c = '\r'

/-- Python `str.strip()`: leading-whitespace removal. -/
def lstrip (l : List Char) : List Char := l.dropWhile isPySpace

/-- Python `str.strip()`: trailing-whitespace removal. -/
def rstrip (l : List Char) : List Char := (l.reverse.dropWhile isPySpace).reverse

/-- Python `str.strip()`. -/
def pyStrip (l : List Char) : List Char := rstrip (lstrip l)

/-- Python `str.startswith`. -/
def startsWithL (p s : List Char) : Bool := List.isPrefixOf p s

/-- Prepend a character to the first line of a line list (helper for
`splitNl`). -/
def consHead (c : Char) : List (List Char) → List (List Char)
  | [] => [[c]]
  | l :: ls => (c :: l) :: ls

/-- Python `str.split` on a newline: `abc_content.split(chr(10))`. -/
def splitNl : List Char → List (List Char)
  | [] => [[]]
  | c :: rest =>
    if c = '\n' then [] :: splitNl rest
    else consHead c (splitNl rest)

/-- Python `newline.join(lines)`. -/
def joinNl : List (List Char) → List Char
  | [] => []
  | [l] => l
  | l :: ls => l ++ '\n' :: joinNl ls

/-- Python `s.count(c)` for a single character. -/
def countChar (c : Char) (s : List Char) : Nat := s.count c

/-- Python `s.count(p)` for a two-character pattern `p = [a, b]`:
non-overlapping occurrences, scanning left to right (after a match the scan
resumes past the matched pair, exactly as `str.count` does). -/
def countSub2 (a b : Char) : List Char → Nat
  | [] => 0
  | [_] => 0
  | x :: y :: rest =>
    if x = a ∧ y = b then 1 + countSub2 a b rest else countSub2 a b (y :: rest)

/-- Python `p in s` for a two-character pattern `p = [a, b]`. -/
def hasSub2 (a b : Char) : List Char → Bool
  | [] => false
  | [_] => false
  | x :: y :: rest => if x = a ∧ y = b then true else hasSub2 a b (y :: rest)

/-- The header/lyric/comment tags skipped by `count_bars`:
`('X:', 'T:', 'C:', 'M:', 'L:', 'Q:', 'K:', 'w:', '%')`. -/
def headerTagStrs : List (List Char) :=
  [s2l "X:", s2l "T:", s2l "C:", s2l "M:", s2l "L:", s2l "Q:", s2l "K:", s2l "w:", s2l "%"]

/-- `line.startswith(('X:', 'T:', 'C:', 'M:', 'L:', 'Q:', 'K:', 'w:', '%'))`. -/
def isHeaderTag (s : List Char) : Bool := headerTagStrs.any (fun p => startsWithL p s)

/-- The line-scanning loop of `count_bars`: strip each line, drop blank lines,
drop header lines other than `%%` directives, track the current voice via
`V:`-marker lines (first voice exactly when the marker starts with `V:1`),
drop `%%MIDI` lines, and keep the remaining lines while in the first voice. -/
def collectMusic : Bool → List (List Char) → List (List Char)
  | _, [] => []
  | inFirstVoice, l :: rest =>
    let s := pyStrip l
    if s.isEmpty then collectMusic inFirstVoice rest
    else if isHeaderTag s && !startsWithL (s2l "%%") s then collectMusic inFirstVoice rest
    else if startsWithL (s2l "V:") s then collectMusic (startsWithL (s2l "V:1") s) rest
    else if startsWithL (s2l "%%MIDI") s then collectMusic inFirstVoice rest
    else if inFirstVoice then s :: collectMusic inFirstVoice rest
    else collectMusic inFirstVoice rest

/-- The `music_content` blob of `count_bars`: the retained first-voice music
lines joined by newlines. -/
def musicBlob (abc : List Char) : List Char :=
  joinNl (collectMusic true (splitNl abc))

/-- `count_bars` from `abc_tools_old.py`: count pipe characters in the
retained first-voice blob, subtract the multi-character markers
repeat-start, repeat-end and final-bar, then add one back when a final-bar
marker is present. -/
def count_bars (abc : List Char) : Int :=
  let music := musicBlob abc
  let barCount : Int := (countChar '|' music : Int)
  let barCount := barCount - countSub2 '|' ':' music
  let barCount := barCount - countSub2 ':' '|' music
  let barCount := barCount - countSub2 '|' ']' music
  if hasSub2 '|' ']' music then barCount + 1 else barCount

/-- Modelled from the spec: the spec states the first-voice flag is "true
only while the most recently seen voice marker names voice 1"; a `V:` marker
line names voice 1 when the digit run following `V:` is exactly `1` (so
`V:12` names voice 12, not voice 1). -/
def namesVoiceOne (s : List Char) : Bool :=
  (s.drop 2).takeWhile Char.isDigit = ['1']

/-- Modelled from the spec: the line-scanning loop with the voice flag
updated to whether the most recent voice marker names voice 1, following the
spec's words; everything else is as in `collectMusic`. -/
def collectMusicSpec : Bool → List (List Char) → List (List Char)
  | _, [] => []
  | inFirstVoice, l :: rest =>
    let s := pyStrip l
    if s.isEmpty then collectMusicSpec inFirstVoice rest
    else if isHeaderTag s && !startsWithL (s2l "%%") s then collectMusicSpec inFirstVoice rest
    else if startsWithL (s2l "V:") s then collectMusicSpec (namesVoiceOne s) rest
    else if startsWithL (s2l "%%MIDI") s then collectMusicSpec inFirstVoice rest
    else if inFirstVoice then s :: collectMusicSpec inFirstVoice rest
    else collectMusicSpec inFirstVoice rest

/-- Modelled from the spec: the bar count obtained when lines are retained
exactly while the most recently seen voice marker names voice 1 (or none has
been seen yet), with the same marker arithmetic as `count_bars`. -/
def countBarsSpecVoice (abc : List Char) : Int :=
  let music := joinNl (collectMusicSpec true (splitNl abc))
  let barCount : Int := (countChar '|' music : Int)
  let barCount := barCount - countSub2 '|' ':' music
  let barCount := barCount - countSub2 ':' '|' music
  let barCount := barCount - countSub2 '|' ']' music
  if hasSub2 '|' ']' music then barCount + 1 else barCount

/-- Decimal rendering of a number interpolated into a Python f-string. -/
def natChars (n : Nat) : List Char := (Nat.repr n).toList

/-- The tags excluded from music content by `read_section_file`:
`('X:', 'T:', 'C:', 'M:', 'L:', 'Q:', 'V:', '%%')`. -/
def readSectionTags : List (List Char) :=
  [s2l "X:", s2l "T:", s2l "C:", s2l "M:", s2l "L:", s2l "Q:", s2l "V:", s2l "%%"]

/-- The line loop of `read_section_file`: music starts after a `K:` line;
from then on, lines with nonblank stripped content that do not start with one
of the excluded tags are kept verbatim. -/
def readSecLines : Bool → List (List Char) → List (List Char)
  | _, [] => []
  | inMusic, l :: rest =>
    if startsWithL (s2l "K:") l then readSecLines true rest
    else if inMusic && !(pyStrip l).isEmpty then
      (if readSectionTags.any (fun p => startsWithL p l) then readSecLines inMusic rest
       else l :: readSecLines inMusic rest)
    else readSecLines inMusic rest

/-- `read_section_file` from `abc_tools_old.py`, with the file passed as its
content: extract just the music lines (after the `K:` header). -/
def read_section_file (content : List Char) : List Char :=
  joinNl (readSecLines false (splitNl content))

/-- The lines of the single-voice header f-string of `combine_sections`:
`X:1`, title, composer, meter, unit length, tempo, key, `V:1` and the MIDI
program directive. -/
def normalHeaderLines (title composer : List Char) (tempo : Nat)
    (time_sig key : List Char) (midi_program : Nat) : List (List Char) :=
  [s2l "X:1", s2l "T:" ++ title, s2l "C:" ++ composer, s2l "M:" ++ time_sig,
    s2l "L:1/8", s2l "Q:1/4=" ++ natChars tempo, s2l "K:" ++ key, s2l "V:1",
    s2l "%%MIDI program " ++ natChars midi_program]

/-- The single-voice header of `combine_sections` (the f-string joined from
its lines, ending in a newline). -/
def normalHeader (title composer : List Char) (tempo : Nat) (time_sig key : List Char)
    (midi_program : Nat) : List Char :=
  joinNl (normalHeaderLines title composer tempo time_sig key midi_program) ++ s2l "\n"

/-- The lines of the percussion header f-string of `combine_sections` (note
the two trailing spaces after "Drums" present in the source). -/
def percHeaderLines (title composer : List Char) (tempo : Nat)
    (time_sig : List Char) : List (List Char) :=
  [s2l "X:1", s2l "T:" ++ title ++ s2l " - Drums  ", s2l "C:" ++ composer,
    s2l "M:" ++ time_sig, s2l "L:1/8", s2l "Q:1/4=" ++ natChars tempo, s2l "K:C perc",
    s2l "V:1 name=\"Kick\"", s2l "%%MIDI program 128", s2l "%%MIDI channel 10"]

/-- The percussion header of `combine_sections`. -/
def percHeader (title composer : List Char) (tempo : Nat) (time_sig : List Char) :
    List Char :=
  joinNl (percHeaderLines title composer tempo time_sig) ++ s2l "\n"

/-- Tags skipped by the percussion fragment parse in `combine_sections`:
`('X:', 'T:', 'C:', 'M:', 'L:', 'Q:', 'K:', '%')`. -/
def percSkipTags : List (List Char) :=
  [s2l "X:", s2l "T:", s2l "C:", s2l "M:", s2l "L:", s2l "Q:", s2l "K:", s2l "%"]

/-- The per-fragment multi-voice parse of `combine_sections` for percussion:
strip each line, skip blanks and header/comment lines, switch the current
voice on `V:2` and `V:1` markers, and bucket the remaining stripped lines
into the current voice.  The later `%%MIDI` test is unreachable (every `%`
line is already skipped) but is kept for fidelity to the source. -/
def percParse : Nat → List (List Char) → List (List Char) × List (List Char)
  | _, [] => ([], [])
  | cur, l :: rest =>
    let s := pyStrip l
    if s.isEmpty || percSkipTags.any (fun p => startsWithL p s) then percParse cur rest
    else if startsWithL (s2l "V:2") s then percParse 2 rest
    else if startsWithL (s2l "V:1") s then percParse 1 rest
    else if startsWithL (s2l "%%MIDI") s then percParse cur rest
    else if cur = 1 then
      let r := percParse cur rest
      (s :: r.1, r.2)
    else if cur = 2 then
      let r := percParse cur rest
      (r.1, s :: r.2)
    else percParse cur rest

/-- The section-gathering loop of `combine_sections`: a `none` entry models a
fragment file that does not exist (the source prints a warning and skips
it).  For percussion, each fragment is parsed into voice buckets whose joins
are appended when nonempty; otherwise the single-voice music is extracted
with `read_section_file` and appended unconditionally. -/
def gatherParts (is_percussion : Bool) :
    List (Option (List Char)) → List (List Char) × List (List Char)
  | [] => ([], [])
  | none :: rest => gatherParts is_percussion rest
  | some content :: rest =>
    let r := gatherParts is_percussion rest
    if is_percussion then
      let vm := percParse 1 (splitNl content)
      ((if !vm.1.isEmpty then joinNl vm.1 :: r.1 else r.1),
       (if !vm.2.isEmpty then joinNl vm.2 :: r.2 else r.2))
    else (read_section_file content :: r.1, r.2)

/-- `combine_sections` from `abc_tools_old.py`, with fragment files passed as
their contents (`none` for a missing file), and the write to the output path
elided (the function also returns the combined content, which is what is
modelled): build the header, concatenate the per-section voice-1 music, and
append a snare `V:2` block when percussion voice-2 content exists. -/
def combine_sections (sections : List (Option (List Char)))
    (title composer : List Char) (tempo : Nat) (time_sig key : List Char)
    (midi_program : Nat) (is_percussion : Bool) : List Char :=
  let parts := gatherParts is_percussion sections
  if is_percussion then
    let full := percHeader title composer tempo time_sig ++ joinNl parts.1
    if !parts.2.isEmpty then
      full ++ s2l "\nV:2 name=\"Snare\"\n%%MIDI program 128\n%%MIDI channel 10\n"
        ++ joinNl parts.2
    else full
  else normalHeader title composer tempo time_sig key midi_program ++ joinNl parts.1

/-- A music line in plain authored form: already stripped, nonblank, on one
line, and not classified as a header, comment or voice-marker line. -/
def plainMusicLine (l : List Char) : Bool :=
  decide (pyStrip l = l) && decide (l ≠ []) && decide ('\n' ∉ l)
    && !isHeaderTag l && !startsWithL (s2l "V:") l

/-- A section fragment in the standard authored form: a `K:` key line
followed by the fragment's music lines. -/
def mkFragment (body : List (List Char)) : List Char :=
  s2l "K:C\n" ++ joinNl body

/-- Python `p in s`: substring containment for an arbitrary pattern. -/
def hasSubstr (p : List Char) : List Char → Bool
  | [] => p.isEmpty
  | c :: rest => startsWithL p (c :: rest) || hasSubstr p rest

/-- A percussion section fragment in the standard authored form: a
percussion key line, a `V:1` block and a `V:2` block. -/
def mkPercFragment (v1 v2 : List (List Char)) : List Char :=
  s2l "K:C perc\nV:1\n" ++ joinNl v1 ++ s2l "\nV:2\n" ++ joinNl v2

/-- Python `" | ".join(bars)`. -/
def sepJoin : List (List Char) → List Char
  | [] => []
  | [b] => b
  | b :: bs => b ++ s2l " | " ++ sepJoin bs

/-- `create_section_template` from `section_tools.py`, with the structure
lookup elided: the title, section and instrument names are passed as the
already-formatted strings interpolated into the header f-string, and the
file write is skipped (the function returns the template content, which is
what is modelled).  Percussion templates get a kick voice and a snare voice
of default patterns; melodic templates get rest bars. -/
def create_section_template (title sectionTitle instrumentTitle time_sig key : List Char)
    (expected_bars : Nat) (is_perc : Bool) : List Char :=
  let header := s2l "X:1\nT:" ++ title ++ s2l " - " ++ sectionTitle ++ s2l " - "
    ++ instrumentTitle ++ s2l "\nM:" ++ time_sig ++ s2l "\nL:1/8\nK:"
    ++ (if is_perc then s2l "C perc" else key) ++ s2l "\n"
  let content :=
    if is_perc then
      let voice1 := sepJoin (List.replicate expected_bars (s2l "C4 C4")) ++ s2l " |"
      let voice2 := s2l "\nV:2 name=\"Snare\"\n"
        ++ sepJoin (List.replicate expected_bars (s2l "z4 E4")) ++ s2l " |"
      header ++ s2l "V:1 name=\"Kick\"\n" ++ voice1 ++ voice2
    else
      header ++ sepJoin (List.replicate expected_bars (s2l "z8")) ++ s2l " |"
  content ++ s2l "\n% Expected: " ++ natChars expected_bars ++ s2l " bars\n"

/-- Result record of `verify_song_consistency`: per-file name and bar count,
the aggregate match flag, and the expected bar count. -/
structure VerifyResult where
  fileBars : List (List Char × Int)
  allMatch : Bool
  expectedBars : Int
deriving DecidableEq

/-- `verify_song_consistency` from `abc_tools_old.py`, with the directory
passed as the (file name, file content) pairs its glob produces; `none`
models the early `No ABC files found` error return.  The per-file validity
check shells out to the external `abc2midi` renderer; it only fills the
per-file `valid`/`message` report fields and has no effect on the bar
counts or on `all_match`, so it is not modelled.  `all_match` is Python's
`len(set(bar_counts)) == 1`; `expected_bars` is the first count, or 0 for
an empty list. -/
def verify_song_consistency (files : List (List Char × List Char)) :
    Option VerifyResult :=
  match files with
  | [] => none
  | _ =>
    let bars := files.map (fun f => (f.1, count_bars f.2))
    let counts := bars.map (fun b => b.2)
    some { fileBars := bars, allMatch := counts.dedup.length == 1,
           expectedBars := counts.headI }

/-- The subcommand surface of the `abc_tools_old.py` command-line block,
with the data each branch's exit status depends on: `count` carries the
file content when the file exists (`none` when it is missing), `validate`
and `verify` carry the outcome their helpers report, and `help` is the
fallthrough when no subcommand is given. -/
inductive AbcToolsCmd where
  | count (file : Option (List Char))
  | validate (valid : Bool)
  | verify (allMatch : Bool)
  | help

/-- Process exit code of the `abc_tools_old.py` CLI: no branch calls
`sys.exit`, so every completed run exits 0 regardless of the validation
outcome; the only nonzero exit is the interpreter's code 1 when `count`
raises an uncaught `FileNotFoundError` reading a missing file. -/
def abcToolsExitCode : AbcToolsCmd → Nat
  | .count none => 1
  | .count (some _) => 0
  | .validate _ => 0
  | .verify _ => 0
  | .help => 0

/-- Exit code of the `section_tools.py` `validate` subcommand:
`sys.exit(0 if is_valid else 1)`. -/
def sectionToolsValidateExitCode (ok : Bool) : Nat := if ok then 0 else 1

/-- Exit code of the `section_tools.py` `validate-all` subcommand:
`sys.exit(0 if results[...] else 1)` on the aggregate validity. -/
def sectionToolsValidateAllExitCode (allValid : Bool) : Nat := if allValid then 0 else 1

/-- Exit code of `build_song.py`: wrong argument count, a missing song
directory or a missing structure file exit 1; otherwise the build runs to
completion and the script exits 0. -/
def buildSongExitCode (argcOk songDirExists structureFileExists : Bool) : Nat :=
  if !argcOk then 1
  else if !songDirExists then 1
  else if !structureFileExists then 1
  else 0

/-- Per-line bar tally: the value `count_bars` assigns to a list of retained
music lines. -/
def barsOfLines (ls : List (List Char)) : Int :=
  ((ls.map (countChar '|')).sum : Int)
    - (ls.map (countSub2 '|' ':')).sum
    - (ls.map (countSub2 ':' '|')).sum
    - (ls.map (countSub2 '|' ']')).sum
    + (if ls.any (hasSub2 '|' ']') then 1 else 0)

/-- The voice flag of `count_bars` after scanning a list of lines: updated only
by `V:`-marker lines, to whether the marker starts with `V:1`. -/
def flagAfter : Bool → List (List Char) → Bool
  | f, [] => f
  | f, l :: rest =>
    let s := pyStrip l
    if s.isEmpty then flagAfter f rest
    else if isHeaderTag s && !startsWithL (s2l "%%") s then flagAfter f rest
    else if startsWithL (s2l "V:") s then flagAfter (startsWithL (s2l "V:1") s) rest
    else flagAfter f rest

/-- A single music line consisting of the given bars separated by pipe
characters and closed by a trailing pipe, as in `C4 D4 | E4 F4 | G8 |`. -/
def joinBars : List (List Char) → List Char
  | [] => []
  | [b] => b ++ s2l " |"
  | b :: bs => b ++ s2l " | " ++ joinBars bs

/-! ### Text helper lemmas -/

theorem consHead_ne_nil (c : Char) (ls : List (List Char)) : consHead c ls ≠ [] := by
  cases ls <;> simp [consHead]

theorem consHead_append (c : Char) (xs ys : List (List Char)) (h : xs ≠ []) :
    consHead c (xs ++ ys) = consHead c xs ++ ys := by
  cases xs with
  | nil => exact absurd rfl h
  | cons l ls => simp [consHead]

theorem splitNl_ne_nil : ∀ l : List Char, splitNl l ≠ []
  | [] => by simp [splitNl]
  | c :: rest => by
    simp only [splitNl]
    split
    · simp
    · exact consHead_ne_nil c (splitNl rest)

theorem splitNl_append : ∀ xs ys : List Char,
    splitNl (xs ++ '\n' :: ys) = splitNl xs ++ splitNl ys
  | [], ys => by simp [splitNl]
  | c :: xs, ys => by
    by_cases hc : c = '\n'
    · subst hc
      simp [splitNl, splitNl_append xs ys]
    · simp only [List.cons_append, splitNl, if_neg hc, List.append_eq, splitNl_append xs ys]
      exact consHead_append c (splitNl xs) (splitNl ys) (splitNl_ne_nil xs)

theorem splitNl_no_nl : ∀ l : List Char, '\n' ∉ l → splitNl l = [l]
  | [], _ => rfl
  | c :: rest, h => by
    have hc : c ≠ '\n' := fun e => h (e ▸ List.mem_cons_self c rest)
    have hr : '\n' ∉ rest := fun m => h (List.mem_cons_of_mem c m)
    simp only [splitNl, if_neg hc, splitNl_no_nl rest hr, consHead]

theorem joinNl_cons (l : List Char) (ls : List (List Char)) (h : ls ≠ []) :
    joinNl (l :: ls) = l ++ '\n' :: joinNl ls := by
  cases ls with
  | nil => exact absurd rfl h
  | cons m ms => rfl

theorem countChar_cons_ne (c x : Char) (s : List Char) (h : x ≠ c) :
    countChar c (x :: s) = countChar c s := by
  simp [countChar, List.count_cons, h]

theorem countChar_append (c : Char) (u v : List Char) :
    countChar c (u ++ v) = countChar c u + countChar c v := by
  simp [countChar, List.count_append]

theorem countSub2_cons_ne (a b x : Char) (s : List Char) (h : x ≠ a) :
    countSub2 a b (x :: s) = countSub2 a b s := by
  cases s with
  | nil => rfl
  | cons y rest => simp [countSub2, h]

theorem countSub2_eq_zero_of_left (a b : Char) :
    ∀ s : List Char, a ∉ s → countSub2 a b s = 0
  | [], _ => rfl
  | [_], _ => rfl
  | x :: y :: rest, h => by
    have hx : x ≠ a := fun e => h (e ▸ List.mem_cons_self x (y :: rest))
    have hr : a ∉ y :: rest := fun m => h (List.mem_cons_of_mem x m)
    rw [countSub2_cons_ne a b x (y :: rest) hx]
    exact countSub2_eq_zero_of_left a b (y :: rest) hr

theorem countSub2_eq_zero_of_right (a b : Char) :
    ∀ s : List Char, b ∉ s → countSub2 a b s = 0
  | [], _ => rfl
  | [_], _ => rfl
  | x :: y :: rest, h => by
    have hy : y ≠ b := fun e => h (e ▸ List.mem_cons_of_mem x (List.mem_cons_self y rest))
    have hr : b ∉ y :: rest := fun m => h (List.mem_cons_of_mem x m)
    have hcond : ¬(x = a ∧ y = b) := fun hc => hy hc.2
    simp only [countSub2, if_neg hcond]
    exact countSub2_eq_zero_of_right a b (y :: rest) hr

theorem hasSub2_eq_false_of_right (a b : Char) :
    ∀ s : List Char, b ∉ s → hasSub2 a b s = false
  | [], _ => rfl
  | [_], _ => rfl
  | x :: y :: rest, h => by
    have hy : y ≠ b := fun e => h (e ▸ List.mem_cons_of_mem x (List.mem_cons_self y rest))
    have hr : b ∉ y :: rest := fun m => h (List.mem_cons_of_mem x m)
    have hcond : ¬(x = a ∧ y = b) := fun hc => hy hc.2
    simp only [hasSub2, if_neg hcond]
    exact hasSub2_eq_false_of_right a b (y :: rest) hr

theorem countSub2_append_nl (a b : Char) (ha : a ≠ '\n') (hb : b ≠ '\n') :
    ∀ u v : List Char, countSub2 a b (u ++ '\n' :: v) = countSub2 a b u + countSub2 a b v
  | [], v => by
    cases v with
    | nil => rfl
    | cons w v' =>
      rw [List.nil_append, countSub2_cons_ne a b '\n' (w :: v') (Ne.symm ha)]
      show countSub2 a b (w :: v') = countSub2 a b [] + countSub2 a b (w :: v')
      rw [show countSub2 a b ([] : List Char) = 0 from rfl]
      omega
  | [x], v => by
    have hcond : ¬(x = a ∧ '\n' = b) := fun hc => hb hc.2.symm
    cases v with
    | nil =>
      show countSub2 a b [x, '\n'] = countSub2 a b [x] + countSub2 a b []
      simp [countSub2, hcond]
    | cons w v' =>
      show countSub2 a b (x :: '\n' :: w :: v') = countSub2 a b [x] + countSub2 a b (w :: v')
      rw [show countSub2 a b (x :: '\n' :: w :: v') = countSub2 a b ('\n' :: w :: v') from by
        simp only [countSub2, if_neg hcond],
        countSub2_cons_ne a b '\n' (w :: v') (Ne.symm ha)]
      simp [countSub2]
  | x :: y :: u, v => by
    by_cases hxy : x = a ∧ y = b
    · simp only [List.cons_append, countSub2, if_pos hxy, List.append_eq,
        countSub2_append_nl a b ha hb u v]
      omega
    · simp only [List.cons_append, countSub2, if_neg hxy]
      have ih := countSub2_append_nl a b ha hb (y :: u) v
      rw [List.cons_append] at ih
      exact ih

theorem hasSub2_append_nl (a b : Char) (ha : a ≠ '\n') (hb : b ≠ '\n') :
    ∀ u v : List Char, hasSub2 a b (u ++ '\n' :: v) = (hasSub2 a b u || hasSub2 a b v)
  | [], v => by
    cases v with
    | nil => rfl
    | cons w v' =>
      have hcond : ¬('\n' = a ∧ w = b) := fun hc => ha hc.1.symm
      simp only [List.nil_append, hasSub2, if_neg hcond, Bool.false_or]
  | [x], v => by
    have hcond : ¬(x = a ∧ '\n' = b) := fun hc => hb hc.2.symm
    cases v with
    | nil =>
      show hasSub2 a b [x, '\n'] = (hasSub2 a b [x] || hasSub2 a b [])
      simp [hasSub2, hcond]
    | cons w v' =>
      have hcond2 : ¬('\n' = a ∧ w = b) := fun hc => ha hc.1.symm
      show hasSub2 a b (x :: '\n' :: w :: v') = (hasSub2 a b [x] || hasSub2 a b (w :: v'))
      simp only [hasSub2, if_neg hcond, if_neg hcond2, Bool.false_or]
  | x :: y :: u, v => by
    by_cases hxy : x = a ∧ y = b
    · simp only [List.cons_append, hasSub2, if_pos hxy, Bool.true_or]
    · simp only [List.cons_append, hasSub2, if_neg hxy]
      have ih := hasSub2_append_nl a b ha hb (y :: u) v
      rw [List.cons_append] at ih
      exact ih

/-! ### Stripping lemmas -/

theorem dropWhile_append_cons (p : Char → Bool) (c : Char) (hc : p c = false) :
    ∀ u w : List Char, List.dropWhile p (u ++ c :: w) = List.dropWhile p u ++ c :: w
  | [], w => by simp [List.dropWhile_cons, hc]
  | d :: u, w => by
    by_cases hd : p d = true
    · rw [List.cons_append, List.dropWhile_cons, if_pos hd, List.dropWhile_cons, if_pos hd,
        dropWhile_append_cons p c hc u w]
    · rw [List.cons_append, List.dropWhile_cons, if_neg hd, List.dropWhile_cons, if_neg hd,
        List.cons_append]

theorem rstrip_append_keep (a l : List Char) (ha : a ≠ [])
    (h : ∀ c ∈ a, isPySpace c = false) : rstrip (a ++ l) = a ++ rstrip l := by
  obtain ⟨d, t, hd⟩ : ∃ d t, a.reverse = d :: t := by
    cases hr : a.reverse with
    | nil => exact absurd (by simpa using congrArg List.reverse hr) ha
    | cons d t => exact ⟨d, t, rfl⟩
  have hda : d ∈ a := by
    rw [← List.mem_reverse, hd]; exact List.mem_cons_self d t
  unfold rstrip
  rw [List.reverse_append, hd, dropWhile_append_cons isPySpace d (h d hda) l.reverse t,
    List.reverse_append, ← hd, List.reverse_reverse]

theorem lstrip_cons_keep (c : Char) (l : List Char) (hc : isPySpace c = false) :
    lstrip (c :: l) = c :: l := by
  simp [lstrip, List.dropWhile_cons, hc]

theorem pyStrip_append_keep (a l : List Char) (ha : a ≠ [])
    (h : ∀ c ∈ a, isPySpace c = false) : pyStrip (a ++ l) = a ++ rstrip l := by
  cases a with
  | nil => exact absurd rfl ha
  | cons c a' =>
    unfold pyStrip
    rw [List.cons_append, lstrip_cons_keep c (a' ++ l) (h c (List.mem_cons_self c a')),
      ← List.cons_append, rstrip_append_keep (c :: a') l ha h]

theorem rstrip_nil : rstrip [] = [] := rfl

theorem pyStrip_no_space (l : List Char) (h : ∀ c ∈ l, isPySpace c = false) :
    pyStrip l = l := by
  cases l with
  | nil => rfl
  | cons c l' =>
    have := pyStrip_append_keep (c :: l') [] (by simp) h
    simpa [rstrip_nil] using this

theorem countChar_dropWhileSpace (c : Char) (hc : isPySpace c = false) (l : List Char) :
    countChar c (l.dropWhile isPySpace) = countChar c l := by
  conv_rhs => rw [← List.takeWhile_append_dropWhile isPySpace l]
  rw [countChar_append]
  have hz : countChar c (l.takeWhile isPySpace) = 0 := by
    rw [countChar, List.count_eq_zero]
    intro m
    have := List.mem_takeWhile_imp m
    rw [hc] at this
    exact Bool.false_ne_true this
  omega

theorem countChar_reverse (c : Char) (l : List Char) :
    countChar c l.reverse = countChar c l := by
  simp [countChar, List.count_reverse]

theorem countChar_pyStrip (c : Char) (hc : isPySpace c = false) (l : List Char) :
    countChar c (pyStrip l) = countChar c l := by
  unfold pyStrip rstrip lstrip
  rw [countChar_reverse, countChar_dropWhileSpace c hc, countChar_reverse,
    countChar_dropWhileSpace c hc]

theorem pyStrip_sublist (l : List Char) : (pyStrip l).Sublist l := by
  have h1 : (lstrip l).Sublist l := List.dropWhile_sublist isPySpace
  have h2 : (rstrip (lstrip l)).Sublist (lstrip l) := by
    have := (List.dropWhile_sublist (l := (lstrip l).reverse) isPySpace).reverse
    simpa [rstrip] using this
  exact h2.trans h1

theorem not_mem_pyStrip (c : Char) (l : List Char) (h : c ∉ l) : c ∉ pyStrip l :=
  fun m => h ((pyStrip_sublist l).subset m)

theorem mem_pyStrip_of_mem (c : Char) (l : List Char) (hc : isPySpace c = false)
    (h : c ∈ l) : c ∈ pyStrip l := by
  have hcount : countChar c (pyStrip l) = countChar c l := countChar_pyStrip c hc l
  have hpos : 0 < countChar c l := by
    rw [countChar]
    exact List.count_pos_iff.mpr h
  rw [← hcount, countChar] at hpos
  exact List.count_pos_iff.mp hpos

/-! ### Aggregation over joined lines -/

theorem countChar_joinNl (c : Char) (hc : c ≠ '\n') :
    ∀ ls : List (List Char), countChar c (joinNl ls) = (ls.map (countChar c)).sum
  | [] => rfl
  | [l] => by simp [joinNl]
  | l :: l' :: ls => by
    rw [joinNl_cons l (l' :: ls) (by simp), countChar_append,
      countChar_cons_ne c '\n' _ (Ne.symm hc), countChar_joinNl c hc (l' :: ls)]
    simp

theorem countSub2_joinNl (a b : Char) (ha : a ≠ '\n') (hb : b ≠ '\n') :
    ∀ ls : List (List Char), countSub2 a b (joinNl ls) = (ls.map (countSub2 a b)).sum
  | [] => rfl
  | [l] => by simp [joinNl]
  | l :: l' :: ls => by
    rw [joinNl_cons l (l' :: ls) (by simp), countSub2_append_nl a b ha hb,
      countSub2_joinNl a b ha hb (l' :: ls)]
    simp

theorem hasSub2_joinNl (a b : Char) (ha : a ≠ '\n') (hb : b ≠ '\n') :
    ∀ ls : List (List Char), hasSub2 a b (joinNl ls) = ls.any (hasSub2 a b)
  | [] => rfl
  | [l] => by simp [joinNl]
  | l :: l' :: ls => by
    rw [joinNl_cons l (l' :: ls) (by simp), hasSub2_append_nl a b ha hb,
      hasSub2_joinNl a b ha hb (l' :: ls)]
    simp

theorem count_bars_eq_barsOfLines (abc : List Char) :
    count_bars abc = barsOfLines (collectMusic true (splitNl abc)) := by
  simp only [count_bars, musicBlob, barsOfLines]
  rw [countChar_joinNl '|' (by decide), countSub2_joinNl '|' ':' (by decide) (by decide),
    countSub2_joinNl ':' '|' (by decide) (by decide),
    countSub2_joinNl '|' ']' (by decide) (by decide),
    hasSub2_joinNl '|' ']' (by decide) (by decide)]
  split <;> omega

/-! ### Line-classification and voice-flag lemmas -/

theorem startsWithL_two (a b : Char) (s : List Char) (h : startsWithL [a, b] s = true) :
    ∃ t, s = a :: b :: t := by
  match s with
  | [] => simp [startsWithL, List.isPrefixOf] at h
  | [x] => simp [startsWithL, List.isPrefixOf] at h
  | x :: y :: t =>
    simp only [startsWithL, List.isPrefixOf, Bool.and_eq_true, beq_iff_eq] at h
    exact ⟨t, by rw [h.1, h.2.1]⟩

theorem headerTagStrs_eq :
    headerTagStrs = [['X', ':'], ['T', ':'], ['C', ':'], ['M', ':'], ['L', ':'],
      ['Q', ':'], ['K', ':'], ['w', ':'], ['%']] := rfl

theorem isHeaderTag_eq (s : List Char) :
    isHeaderTag s = (startsWithL ['X', ':'] s || startsWithL ['T', ':'] s ||
      startsWithL ['C', ':'] s || startsWithL ['M', ':'] s || startsWithL ['L', ':'] s ||
      startsWithL ['Q', ':'] s || startsWithL ['K', ':'] s || startsWithL ['w', ':'] s ||
      startsWithL ['%'] s) := by
  rw [isHeaderTag, headerTagStrs_eq]
  simp [Bool.or_assoc]

theorem startsWithL_cons_of_ne (a : Char) (p : List Char) (x : Char) (t : List Char)
    (h : a ≠ x) : startsWithL (a :: p) (x :: t) = false := by
  simp [startsWithL, List.isPrefixOf, h]

theorem startsWithL_nil_right (p : List Char) (hp : p ≠ []) : startsWithL p [] = false := by
  cases p with
  | nil => exact absurd rfl hp
  | cons a q => simp [startsWithL, List.isPrefixOf]

theorem isHeaderTag_V (t : List Char) : isHeaderTag ('V' :: ':' :: t) = false := by
  rw [isHeaderTag_eq]
  simp [startsWithL, List.isPrefixOf]

theorem isHeaderTag_percent (t : List Char) : isHeaderTag ('%' :: t) = true := by
  rw [isHeaderTag_eq]
  simp [startsWithL, List.isPrefixOf]

theorem collectMusic_cons (f : Bool) (l : List Char) (rest : List (List Char)) :
    collectMusic f (l :: rest) =
      (if (pyStrip l).isEmpty then collectMusic f rest
       else if isHeaderTag (pyStrip l) && !startsWithL (s2l "%%") (pyStrip l) then
         collectMusic f rest
       else if startsWithL (s2l "V:") (pyStrip l) then
         collectMusic (startsWithL (s2l "V:1") (pyStrip l)) rest
       else if startsWithL (s2l "%%MIDI") (pyStrip l) then collectMusic f rest
       else if f then pyStrip l :: collectMusic f rest
       else collectMusic f rest) := rfl

theorem flagAfter_cons (f : Bool) (l : List Char) (rest : List (List Char)) :
    flagAfter f (l :: rest) =
      (if (pyStrip l).isEmpty then flagAfter f rest
       else if isHeaderTag (pyStrip l) && !startsWithL (s2l "%%") (pyStrip l) then
         flagAfter f rest
       else if startsWithL (s2l "V:") (pyStrip l) then
         flagAfter (startsWithL (s2l "V:1") (pyStrip l)) rest
       else flagAfter f rest) := rfl

theorem collectMusic_append :
    ∀ (xs : List (List Char)) (f : Bool) (ys : List (List Char)),
      collectMusic f (xs ++ ys) = collectMusic f xs ++ collectMusic (flagAfter f xs) ys
  | [], f, ys => by simp [collectMusic, flagAfter]
  | l :: xs, f, ys => by
    rw [List.cons_append, collectMusic_cons f l (xs ++ ys), collectMusic_cons f l xs,
      flagAfter_cons f l xs]
    by_cases h1 : (pyStrip l).isEmpty = true
    · rw [if_pos h1, if_pos h1, if_pos h1, collectMusic_append xs f ys]
    · rw [if_neg h1, if_neg h1, if_neg h1]
      by_cases h2 : (isHeaderTag (pyStrip l) && !startsWithL (s2l "%%") (pyStrip l)) = true
      · rw [if_pos h2, if_pos h2, if_pos h2, collectMusic_append xs f ys]
      · rw [if_neg h2, if_neg h2, if_neg h2]
        by_cases h3 : startsWithL (s2l "V:") (pyStrip l) = true
        · rw [if_pos h3, if_pos h3, if_pos h3,
            collectMusic_append xs (startsWithL (s2l "V:1") (pyStrip l)) ys]
        · rw [if_neg h3, if_neg h3, if_neg h3]
          by_cases h4 : startsWithL (s2l "%%MIDI") (pyStrip l) = true
          · rw [if_pos h4, if_pos h4, collectMusic_append xs f ys]
          · rw [if_neg h4, if_neg h4]
            by_cases h5 : f = true
            · rw [if_pos h5, if_pos h5, collectMusic_append xs f ys, List.cons_append]
            · rw [if_neg h5, if_neg h5, collectMusic_append xs f ys]

theorem startsWithL_exists_append (p s : List Char) (h : startsWithL p s = true) :
    ∃ t, s = p ++ t := by
  obtain ⟨t, ht⟩ := List.isPrefixOf_iff_prefix.mp h
  exact ⟨t, ht.symm⟩

theorem isHeaderTag_of_mem (p s : List Char) (hp : p ∈ headerTagStrs)
    (h : startsWithL p s = true) : isHeaderTag s = true := by
  unfold isHeaderTag
  rw [List.any_eq_true]
  exact ⟨p, hp, h⟩

theorem collectMusic_cons_blank (f : Bool) (l : List Char) (rest : List (List Char))
    (h : pyStrip l = []) : collectMusic f (l :: rest) = collectMusic f rest := by
  rw [collectMusic_cons, if_pos (by simp [h])]

theorem flagAfter_cons_blank (f : Bool) (l : List Char) (rest : List (List Char))
    (h : pyStrip l = []) : flagAfter f (l :: rest) = flagAfter f rest := by
  rw [flagAfter_cons, if_pos (by simp [h])]

theorem collectMusic_cons_headerSkip (f : Bool) (l : List Char) (rest : List (List Char))
    (hne : pyStrip l ≠ []) (hh : isHeaderTag (pyStrip l) = true)
    (hp : startsWithL (s2l "%%") (pyStrip l) = false) :
    collectMusic f (l :: rest) = collectMusic f rest := by
  rw [collectMusic_cons, if_neg (by simp [hne]), if_pos (by simp [hh, hp])]

theorem flagAfter_cons_headerSkip (f : Bool) (l : List Char) (rest : List (List Char))
    (hne : pyStrip l ≠ []) (hh : isHeaderTag (pyStrip l) = true)
    (hp : startsWithL (s2l "%%") (pyStrip l) = false) :
    flagAfter f (l :: rest) = flagAfter f rest := by
  rw [flagAfter_cons, if_neg (by simp [hne]), if_pos (by simp [hh, hp])]

theorem collectMusic_cons_voice (f : Bool) (l : List Char) (rest : List (List Char))
    (hv : startsWithL (s2l "V:") (pyStrip l) = true) :
    collectMusic f (l :: rest) =
      collectMusic (startsWithL (s2l "V:1") (pyStrip l)) rest := by
  obtain ⟨t, ht⟩ := startsWithL_two 'V' ':' (pyStrip l) hv
  rw [collectMusic_cons, if_neg (by simp [ht]), if_neg (by simp [ht, isHeaderTag_V]),
    if_pos hv]

theorem flagAfter_cons_voice (f : Bool) (l : List Char) (rest : List (List Char))
    (hv : startsWithL (s2l "V:") (pyStrip l) = true) :
    flagAfter f (l :: rest) = flagAfter (startsWithL (s2l "V:1") (pyStrip l)) rest := by
  obtain ⟨t, ht⟩ := startsWithL_two 'V' ':' (pyStrip l) hv
  rw [flagAfter_cons, if_neg (by simp [ht]), if_neg (by simp [ht, isHeaderTag_V]),
    if_pos hv]

theorem collectMusic_cons_midi (f : Bool) (l : List Char) (rest : List (List Char))
    (hm : startsWithL (s2l "%%MIDI") (pyStrip l) = true) :
    collectMusic f (l :: rest) = collectMusic f rest := by
  obtain ⟨t, ht⟩ := startsWithL_exists_append (s2l "%%MIDI") (pyStrip l) hm
  have hpp : startsWithL (s2l "%%") (pyStrip l) = true := by
    rw [ht]; simp [startsWithL, List.isPrefixOf, s2l]
  have hv : startsWithL (s2l "V:") (pyStrip l) = false := by
    rw [ht]; simp [startsWithL, List.isPrefixOf, s2l]
  rw [collectMusic_cons, if_neg (by simp [ht, s2l]), if_neg (by simp [hpp]),
    if_neg (by simp [hv]), if_pos hm]

theorem flagAfter_cons_midi (f : Bool) (l : List Char) (rest : List (List Char))
    (hm : startsWithL (s2l "%%MIDI") (pyStrip l) = true) :
    flagAfter f (l :: rest) = flagAfter f rest := by
  obtain ⟨t, ht⟩ := startsWithL_exists_append (s2l "%%MIDI") (pyStrip l) hm
  have hpp : startsWithL (s2l "%%") (pyStrip l) = true := by
    rw [ht]; simp [startsWithL, List.isPrefixOf, s2l]
  have hv : startsWithL (s2l "V:") (pyStrip l) = false := by
    rw [ht]; simp [startsWithL, List.isPrefixOf, s2l]
  rw [flagAfter_cons, if_neg (by simp [ht, s2l]), if_neg (by simp [hpp]),
    if_neg (by simp [hv])]

theorem collectMusic_cons_keep (f : Bool) (l : List Char) (rest : List (List Char))
    (hne : pyStrip l ≠ [])
    (hh : (isHeaderTag (pyStrip l) && !startsWithL (s2l "%%") (pyStrip l)) = false)
    (hv : startsWithL (s2l "V:") (pyStrip l) = false)
    (hm : startsWithL (s2l "%%MIDI") (pyStrip l) = false) :
    collectMusic f (l :: rest) =
      if f then pyStrip l :: collectMusic f rest else collectMusic f rest := by
  rw [collectMusic_cons, if_neg (by simp [hne]), if_neg (by simp [hh]),
    if_neg (by simp [hv]), if_neg (by simp [hm])]

theorem flagAfter_cons_keep (f : Bool) (l : List Char) (rest : List (List Char))
    (hne : pyStrip l ≠ [])
    (hh : (isHeaderTag (pyStrip l) && !startsWithL (s2l "%%") (pyStrip l)) = false)
    (hv : startsWithL (s2l "V:") (pyStrip l) = false) :
    flagAfter f (l :: rest) = flagAfter f rest := by
  rw [flagAfter_cons, if_neg (by simp [hne]), if_neg (by simp [hh]), if_neg (by simp [hv])]

theorem collectMusic_false_nil :
    ∀ ls : List (List Char),
      (∀ l ∈ ls, startsWithL (s2l "V:1") (pyStrip l) = false) →
      collectMusic false ls = []
  | [], _ => rfl
  | l :: ls, h => by
    have hrest : ∀ m ∈ ls, startsWithL (s2l "V:1") (pyStrip m) = false :=
      fun m hm => h m (List.mem_cons_of_mem l hm)
    have ih := collectMusic_false_nil ls hrest
    by_cases h1 : pyStrip l = []
    · rw [collectMusic_cons_blank false l ls h1, ih]
    · by_cases h3 : startsWithL (s2l "V:") (pyStrip l) = true
      · rw [collectMusic_cons_voice false l ls h3, h l (List.mem_cons_self l ls), ih]
      · by_cases h2 : (isHeaderTag (pyStrip l) && !startsWithL (s2l "%%") (pyStrip l)) = true
        · rw [collectMusic_cons_headerSkip false l ls h1 (by
            rcases Bool.and_eq_true_iff.mp h2 with ⟨ha, _⟩; exact ha) (by
            rcases Bool.and_eq_true_iff.mp h2 with ⟨_, hb⟩; simpa using hb), ih]
        · by_cases h4 : startsWithL (s2l "%%MIDI") (pyStrip l) = true
          · rw [collectMusic_cons_midi false l ls h4, ih]
          · rw [collectMusic_cons_keep false l ls h1 (by simpa using h2) (by simpa using h3)
              (by simpa using h4), if_neg (by simp), ih]

/-! ### Pipe-delimited bar lines (formalizing "N pipe-delimited bars") -/

theorem not_mem_joinBars (c : Char) (hc1 : c ≠ ' ') (hc2 : c ≠ '|') :
    ∀ bs : List (List Char), (∀ b ∈ bs, c ∉ b) → c ∉ joinBars bs
  | [], _ => by simp [joinBars]
  | [b], h => by
    simp only [joinBars, List.mem_append]
    rintro (hb | hs)
    · exact h b (List.mem_cons_self b []) hb
    · revert hs
      simp [s2l, hc1, hc2]
  | b :: b' :: bs, h => by
    simp only [joinBars, List.mem_append]
    rintro ((hb | hs) | hj)
    · exact h b (List.mem_cons_self b (b' :: bs)) hb
    · revert hs
      simp [s2l, hc1, hc2]
    · exact not_mem_joinBars c hc1 hc2 (b' :: bs)
        (fun m hm => h m (List.mem_cons_of_mem b hm)) hj

theorem countChar_pipe_joinBars :
    ∀ bs : List (List Char), (∀ b ∈ bs, '|' ∉ b) →
      countChar '|' (joinBars bs) = bs.length
  | [], _ => rfl
  | [b], h => by
    have hb : countChar '|' b = 0 := by
      rw [countChar, List.count_eq_zero]
      exact h b (List.mem_cons_self b [])
    rw [joinBars, countChar_append, hb]
    rfl
  | b :: b' :: bs, h => by
    have hb : countChar '|' b = 0 := by
      rw [countChar, List.count_eq_zero]
      exact h b (List.mem_cons_self b (b' :: bs))
    rw [show joinBars (b :: b' :: bs) = b ++ s2l " | " ++ joinBars (b' :: bs) from rfl,
      List.append_assoc, countChar_append, hb, countChar_append,
      countChar_pipe_joinBars (b' :: bs) (fun m hm => h m (List.mem_cons_of_mem b hm))]
    simp [countChar, s2l]
    omega

theorem pipe_mem_joinBars : ∀ (b : List Char) (bs : List (List Char)),
    '|' ∈ joinBars (b :: bs)
  | b, [] => by simp [joinBars, s2l]
  | b, b' :: bs => by simp [joinBars, s2l]

/-- Claim C1: for every ABC text consisting of pipe-delimited single-voice
bars — built by `joinBars` from bar contents free of pipe, colon, bracket and
newline characters, and not shaped like a header or voice-marker line — the
bar counter `count_bars` returns exactly the number of bars; the spec's
example `count_bars "C4 D4 | E4 F4 | G8 |" = 3` is the three-bar instance. -/
theorem claim_C1_plain_bar_count (bs : List (List Char))
    (hbars : ∀ b ∈ bs, '|' ∉ b ∧ ':' ∉ b ∧ ']' ∉ b ∧ '\n' ∉ b)
    (hhd : isHeaderTag (pyStrip (joinBars bs)) = false)
    (hv : startsWithL (s2l "V:") (pyStrip (joinBars bs)) = false) :
    count_bars (joinBars bs) = bs.length := by
  cases bs with
  | nil => decide
  | cons b bs' =>
    have hnl : '\n' ∉ joinBars (b :: bs') :=
      not_mem_joinBars '\n' (by decide) (by decide) _ (fun m hm => (hbars m hm).2.2.2)
    have hcolon : ':' ∉ joinBars (b :: bs') :=
      not_mem_joinBars ':' (by decide) (by decide) _ (fun m hm => (hbars m hm).2.1)
    have hbracket : ']' ∉ joinBars (b :: bs') :=
      not_mem_joinBars ']' (by decide) (by decide) _ (fun m hm => (hbars m hm).2.2.1)
    have hpipe : '|' ∈ joinBars (b :: bs') := pipe_mem_joinBars b bs'
    have hsplit : splitNl (joinBars (b :: bs')) = [joinBars (b :: bs')] :=
      splitNl_no_nl _ hnl
    have hstripNe : pyStrip (joinBars (b :: bs')) ≠ [] :=
      List.ne_nil_of_mem (mem_pyStrip_of_mem '|' _ (by decide) hpipe)
    have hmidi : startsWithL (s2l "%%MIDI") (pyStrip (joinBars (b :: bs'))) = false := by
      by_contra hcon
      rw [Bool.not_eq_false] at hcon
      obtain ⟨t, ht⟩ := startsWithL_exists_append _ _ hcon
      have hper : isHeaderTag (pyStrip (joinBars (b :: bs'))) = true := by
        rw [ht]
        exact isHeaderTag_percent _
      rw [hhd] at hper
      exact Bool.false_ne_true hper
    rw [count_bars_eq_barsOfLines, hsplit,
      collectMusic_cons_keep true _ [] hstripNe (by simp [hhd]) hv hmidi, if_pos rfl]
    have c1 : countChar '|' (pyStrip (joinBars (b :: bs'))) = (b :: bs').length := by
      rw [countChar_pyStrip '|' (by decide)]
      exact countChar_pipe_joinBars (b :: bs') (fun m hm => (hbars m hm).1)
    have c2 : countSub2 '|' ':' (pyStrip (joinBars (b :: bs'))) = 0 :=
      countSub2_eq_zero_of_right _ _ _ (not_mem_pyStrip ':' _ hcolon)
    have c3 : countSub2 ':' '|' (pyStrip (joinBars (b :: bs'))) = 0 :=
      countSub2_eq_zero_of_left _ _ _ (not_mem_pyStrip ':' _ hcolon)
    have c4 : countSub2 '|' ']' (pyStrip (joinBars (b :: bs'))) = 0 :=
      countSub2_eq_zero_of_right _ _ _ (not_mem_pyStrip ']' _ hbracket)
    have c5 : hasSub2 '|' ']' (pyStrip (joinBars (b :: bs'))) = false :=
      hasSub2_eq_false_of_right _ _ _ (not_mem_pyStrip ']' _ hbracket)
    simp [barsOfLines, collectMusic, c1, c2, c3, c4, c5]

/-- Witness for claim C1: the spec's example, three pipe-delimited bars. -/
theorem claim_C1_witness : count_bars (s2l "C4 D4 | E4 F4 | G8 |") = 3 := by
  have h := claim_C1_plain_bar_count [s2l "C4 D4", s2l "E4 F4", s2l "G8"]
    (by decide) (by decide) (by decide)
  exact h

/-- Claim C2: for every input text, `count_bars` returns the number of pipe
characters in the retained first-voice music blob, minus the occurrences of
the repeat-start (`|:`), repeat-end (`:|`) and final-bar (`|]`) markers,
plus one exactly when a final-bar marker occurs in the blob; the count is
computed purely from the characters physically present, so a repeat passage
contributes only the bars physically written and is never doubled. -/
theorem claim_C2_count_formula (abc : List Char) :
    count_bars abc =
      (countChar '|' (musicBlob abc) : Int)
        - countSub2 '|' ':' (musicBlob abc)
        - countSub2 ':' '|' (musicBlob abc)
        - countSub2 '|' ']' (musicBlob abc)
        + (if hasSub2 '|' ']' (musicBlob abc) then 1 else 0) := by
  simp only [count_bars]
  split <;> omega

/-- Claim C10: `count_bars` is not guaranteed to be non-negative: on the
text `:|:` it returns the negative count -1. -/
theorem claim_C10_negative_count :
    count_bars (s2l ":|:") = -1 ∧ count_bars (s2l ":|:") < 0 := by decide

/-- Counterexample to claim C8 as stated: a `%%` directive line that is not
a `%%MIDI` line is retained in the counted blob, so adding one containing a
pipe character changes the returned count (here from 0 to 1). -/
theorem claim_C8_counterexample :
    count_bars (s2l "%%text a | b") ≠ count_bars (s2l "") := by decide

/-- Claim C8, amended: header lines (single-letter tag plus colon, not a
`%%` directive) and `%%MIDI` directive lines never contribute to the count —
inserting such a line between any two parts of the text leaves the result
unchanged.  Non-`%%MIDI` directive lines, by contrast, are retained and do
contribute (see the counterexample). -/
theorem claim_C8_skipped_lines_dont_count (pre post m : List Char)
    (hnl : '\n' ∉ m)
    (hskip : (isHeaderTag (pyStrip m) = true ∧ startsWithL (s2l "%%") (pyStrip m) = false)
      ∨ startsWithL (s2l "%%MIDI") (pyStrip m) = true) :
    count_bars (pre ++ '\n' :: (m ++ '\n' :: post)) = count_bars (pre ++ '\n' :: post) := by
  have hlines : splitNl (pre ++ '\n' :: (m ++ '\n' :: post)) =
      splitNl pre ++ ([m] ++ splitNl post) := by
    rw [splitNl_append, splitNl_append, splitNl_no_nl m hnl]
  have hlines2 : splitNl (pre ++ '\n' :: post) = splitNl pre ++ splitNl post :=
    splitNl_append pre post
  have hstep : ∀ g : Bool, collectMusic g ([m] ++ splitNl post) =
      collectMusic g (splitNl post) := by
    intro g
    rcases hskip with ⟨hh, hp⟩ | hmidi
    · have hne : pyStrip m ≠ [] := by
        intro hcon
        rw [hcon] at hh
        exact Bool.false_ne_true ((by decide : isHeaderTag [] = false) ▸ hh)
      exact collectMusic_cons_headerSkip g m (splitNl post) hne hh hp
    · exact collectMusic_cons_midi g m (splitNl post) hmidi
  rw [count_bars_eq_barsOfLines, count_bars_eq_barsOfLines, hlines, hlines2,
    collectMusic_append, hstep, collectMusic_append]

/-- Witness for claim C8 (amended): inserting a `%%MIDI` program line between
two one-bar music lines leaves the count unchanged. -/
theorem claim_C8_witness :
    count_bars (s2l "C4 |\n%%MIDI program 53\nD4 |") = count_bars (s2l "C4 |\nD4 |") ∧
    count_bars (s2l "C4 |\nD4 |") = 2 := by
  constructor
  · exact claim_C8_skipped_lines_dont_count (s2l "C4 |") (s2l "D4 |")
      (s2l "%%MIDI program 53") (by decide) (Or.inr (by decide))
  · decide

/-- Counterexample to claim C3 as stated: the code treats any voice marker
starting with `V:1` as the first voice, so on a file whose only voice is
`V:12` the code counts that voice's bar while the spec's "names voice 1"
reading retains nothing. -/
theorem claim_C3_counterexample :
    count_bars (s2l "V:12\nC4 C4 C4 C4 |") = 1 ∧
    countBarsSpecVoice (s2l "V:12\nC4 C4 C4 C4 |") = 0 := by decide

/-- Claim C3, amended: a line is retained exactly while the most recently
seen voice-marker line starts with `V:1` (markers such as `V:12` therefore
also count as the first voice), or no marker has been seen yet.  In
particular appending a `V:2` block — of any length, provided none of its
lines is a marker starting with `V:1` — leaves the count unchanged. -/
theorem claim_C3_first_voice_only (pre post : List Char)
    (hpost : ∀ l ∈ splitNl post, startsWithL (s2l "V:1") (pyStrip l) = false) :
    count_bars (pre ++ '\n' :: ('V' :: ':' :: '2' :: '\n' :: post)) = count_bars pre := by
  have hshape : 'V' :: ':' :: '2' :: '\n' :: post = ['V', ':', '2'] ++ '\n' :: post := rfl
  have hlines : splitNl (pre ++ '\n' :: ('V' :: ':' :: '2' :: '\n' :: post)) =
      splitNl pre ++ ([['V', ':', '2']] ++ splitNl post) := by
    rw [hshape, splitNl_append, splitNl_append, splitNl_no_nl ['V', ':', '2'] (by decide)]
  have hstrip : pyStrip ['V', ':', '2'] = ['V', ':', '2'] := by decide
  have hv : startsWithL (s2l "V:") (pyStrip ['V', ':', '2']) = true := by decide
  rw [count_bars_eq_barsOfLines, count_bars_eq_barsOfLines, hlines, collectMusic_append]
  rw [show ([['V', ':', '2']] ++ splitNl post) = ['V', ':', '2'] :: splitNl post from rfl,
    collectMusic_cons_voice _ _ _ hv,
    show startsWithL (s2l "V:1") (pyStrip ['V', ':', '2']) = false from by decide,
    collectMusic_false_nil (splitNl post) hpost, List.append_nil]

/-- Witness for claim C3 (amended): a two-bar first voice followed by a
three-bar `V:2` block counts two bars. -/
theorem claim_C3_witness :
    count_bars (s2l "C4 |\nD4 |\nV:2\nE4 | F4 | G4 |") = count_bars (s2l "C4 |\nD4 |") ∧
    count_bars (s2l "C4 |\nD4 |") = 2 := by
  constructor
  · exact claim_C3_first_voice_only (s2l "C4 |\nD4 |") (s2l "E4 | F4 | G4 |") (by decide)
  · decide

/-! ### Prefix utilities and digit strings -/

theorem startsWithL_self_append (p t : List Char) : startsWithL p (p ++ t) = true := by
  rw [startsWithL, List.isPrefixOf_iff_prefix]
  exact List.prefix_append p t

theorem startsWithL_of_append (p q s : List Char) (h : startsWithL (p ++ q) s = true) :
    startsWithL p s = true := by
  obtain ⟨t, ht⟩ := startsWithL_exists_append _ _ h
  rw [ht, List.append_assoc]
  exact startsWithL_self_append p (q ++ t)

theorem not_tag_of_not_headerTag (p l : List Char) (hp : p ∈ headerTagStrs)
    (h : isHeaderTag l = false) : startsWithL p l = false := by
  by_contra hcon
  rw [Bool.not_eq_false] at hcon
  rw [isHeaderTag_of_mem p l hp hcon] at h
  simp at h

theorem digitChar_ne_nl (d : Nat) : Nat.digitChar d ≠ '\n' := by
  rcases Nat.lt_or_ge d 16 with hlt | hge
  · interval_cases d <;> decide
  · intro hbad
    have hstar : Nat.digitChar d = '*' := by
      rw [Nat.digitChar.eq_def]
      iterate 16 rw [if_neg (by omega)]
    rw [hstar] at hbad
    exact absurd hbad (by decide)

theorem toDigitsCore_ne_nl :
    ∀ (fuel n : Nat) (acc : List Char), (∀ c ∈ acc, c ≠ '\n') →
      ∀ c ∈ Nat.toDigitsCore 10 fuel n acc, c ≠ '\n'
  | 0, n, acc, hacc => by simpa [Nat.toDigitsCore] using hacc
  | fuel + 1, n, acc, hacc => by
    simp only [Nat.toDigitsCore]
    split
    · intro c hc
      rcases List.mem_cons.mp hc with rfl | hmem
      · exact digitChar_ne_nl _
      · exact hacc c hmem
    · exact toDigitsCore_ne_nl fuel (n / 10) (Nat.digitChar (n % 10) :: acc)
        (fun c hc => by
          rcases List.mem_cons.mp hc with rfl | hmem
          · exact digitChar_ne_nl _
          · exact hacc c hmem)

theorem natChars_ne_nl (n : Nat) : '\n' ∉ natChars n := by
  have he : natChars n = Nat.toDigits 10 n := rfl
  rw [he, Nat.toDigits]
  intro hmem
  exact toDigitsCore_ne_nl (n + 1) n [] (by simp) '\n' hmem rfl

/-! ### Plain music lines -/

theorem plainMusicLine_parts (l : List Char) (h : plainMusicLine l = true) :
    pyStrip l = l ∧ l ≠ [] ∧ '\n' ∉ l ∧ isHeaderTag l = false ∧
      startsWithL (s2l "V:") l = false := by
  simp only [plainMusicLine, Bool.and_eq_true, decide_eq_true_eq,
    Bool.not_eq_true'] at h
  tauto

theorem percent_false_of_plain (l : List Char) (h : isHeaderTag l = false) :
    startsWithL (s2l "%%") l = false := by
  by_contra hcon
  rw [Bool.not_eq_false] at hcon
  have h1 : startsWithL (s2l "%") l = true := startsWithL_of_append ['%'] ['%'] l hcon
  rw [not_tag_of_not_headerTag (s2l "%") l (by decide) h] at h1
  exact Bool.false_ne_true h1

theorem midi_false_of_plain (l : List Char) (h : isHeaderTag l = false) :
    startsWithL (s2l "%%MIDI") l = false := by
  by_contra hcon
  rw [Bool.not_eq_false] at hcon
  have h1 : startsWithL (s2l "%") l = true :=
    startsWithL_of_append ['%'] (s2l "%MIDI") l hcon
  rw [not_tag_of_not_headerTag (s2l "%") l (by decide) h] at h1
  exact Bool.false_ne_true h1

theorem collectMusic_plain :
    ∀ ls : List (List Char), (∀ l ∈ ls, plainMusicLine l = true) →
      collectMusic true ls = ls
  | [], _ => rfl
  | l :: ls, h => by
    obtain ⟨hstrip, hne, _, hhd, hv⟩ := plainMusicLine_parts l (h l (List.mem_cons_self l ls))
    have hrest := fun m hm => h m (List.mem_cons_of_mem l hm)
    rw [collectMusic_cons_keep true l ls (by rw [hstrip]; exact hne)
      (by rw [hstrip, hhd]; simp) (by rw [hstrip]; exact hv)
      (by rw [hstrip]; exact midi_false_of_plain l hhd), if_pos rfl, hstrip,
      collectMusic_plain ls hrest]

theorem flagAfter_plain :
    ∀ (ls : List (List Char)) (f : Bool), (∀ l ∈ ls, plainMusicLine l = true) →
      flagAfter f ls = f
  | [], _, _ => rfl
  | l :: ls, f, h => by
    obtain ⟨hstrip, hne, _, hhd, hv⟩ := plainMusicLine_parts l (h l (List.mem_cons_self l ls))
    have hrest := fun m hm => h m (List.mem_cons_of_mem l hm)
    rw [flagAfter_cons_keep f l ls (by rw [hstrip]; exact hne)
      (by rw [hstrip, hhd]; simp) (by rw [hstrip]; exact hv),
      flagAfter_plain ls f hrest]

theorem collectMusic_plain_false :
    ∀ ls : List (List Char), (∀ l ∈ ls, plainMusicLine l = true) →
      collectMusic false ls = [] := by
  intro ls h
  apply collectMusic_false_nil
  intro l hl
  obtain ⟨hstrip, _, _, _, hv⟩ := plainMusicLine_parts l (h l hl)
  rw [hstrip]
  by_contra hcon
  rw [Bool.not_eq_false] at hcon
  have h1 : startsWithL (s2l "V:") l = true :=
    startsWithL_of_append (s2l "V:") ['1'] l hcon
  rw [hv] at h1
  exact Bool.false_ne_true h1

/-! ### read_section_file on standard fragments -/

theorem readSecLines_cons (m : Bool) (l : List Char) (rest : List (List Char)) :
    readSecLines m (l :: rest) =
      (if startsWithL (s2l "K:") l then readSecLines true rest
       else if m && !(pyStrip l).isEmpty then
         (if readSectionTags.any (fun p => startsWithL p l) then readSecLines m rest
          else l :: readSecLines m rest)
       else readSecLines m rest) := rfl

theorem readSecLines_true_plain :
    ∀ ls : List (List Char), (∀ l ∈ ls, plainMusicLine l = true) →
      readSecLines true ls = ls
  | [], _ => rfl
  | l :: ls, h => by
    obtain ⟨hstrip, hne, _, hhd, hv⟩ := plainMusicLine_parts l (h l (List.mem_cons_self l ls))
    have hrest := fun m hm => h m (List.mem_cons_of_mem l hm)
    have hK : startsWithL (s2l "K:") l = false :=
      not_tag_of_not_headerTag (s2l "K:") l (by decide) hhd
    have htags : readSectionTags.any (fun p => startsWithL p l) = false := by
      have hX := not_tag_of_not_headerTag (s2l "X:") l (by decide) hhd
      have hT := not_tag_of_not_headerTag (s2l "T:") l (by decide) hhd
      have hC := not_tag_of_not_headerTag (s2l "C:") l (by decide) hhd
      have hM := not_tag_of_not_headerTag (s2l "M:") l (by decide) hhd
      have hL := not_tag_of_not_headerTag (s2l "L:") l (by decide) hhd
      have hQ := not_tag_of_not_headerTag (s2l "Q:") l (by decide) hhd
      have hPP := percent_false_of_plain l hhd
      simp only [readSectionTags, List.any_cons, List.any_nil, hX, hT, hC, hM, hL, hQ,
        hv, hPP, Bool.or_self, Bool.or_false]
    rw [readSecLines_cons, if_neg (by simp [hK]),
      if_pos (by rw [hstrip]; simp [hne]), if_neg (by simp [htags]),
      readSecLines_true_plain ls hrest]

theorem splitNl_joinNl :
    ∀ ls : List (List Char), ls ≠ [] → (∀ l ∈ ls, '\n' ∉ l) →
      splitNl (joinNl ls) = ls
  | [], h, _ => absurd rfl h
  | [l], _, h => by
    rw [show joinNl [l] = l from rfl, splitNl_no_nl l (h l (List.mem_cons_self l []))]
  | l :: l' :: ls, _, h => by
    rw [joinNl_cons l (l' :: ls) (by simp), splitNl_append,
      splitNl_no_nl l (h l (List.mem_cons_self l (l' :: ls))),
      splitNl_joinNl (l' :: ls) (by simp) (fun m hm => h m (List.mem_cons_of_mem l hm))]
    rfl

theorem read_section_file_mkFragment (body : List (List Char)) (hne : body ≠ [])
    (h : ∀ l ∈ body, plainMusicLine l = true) :
    read_section_file (mkFragment body) = joinNl body := by
  have hnl : ∀ l ∈ body, '\n' ∉ l := fun l hl => (plainMusicLine_parts l (h l hl)).2.2.1
  have hsplit : splitNl (mkFragment body) = s2l "K:C" :: splitNl (joinNl body) := by
    rw [show mkFragment body = s2l "K:C" ++ '\n' :: joinNl body from rfl, splitNl_append,
      splitNl_no_nl (s2l "K:C") (by decide)]
    rfl
  rw [read_section_file, hsplit, readSecLines_cons, if_pos (by decide),
    splitNl_joinNl body hne hnl, readSecLines_true_plain body h]

theorem count_bars_mkFragment (body : List (List Char)) (hne : body ≠ [])
    (h : ∀ l ∈ body, plainMusicLine l = true) :
    count_bars (mkFragment body) = barsOfLines body := by
  have hnl : ∀ l ∈ body, '\n' ∉ l := fun l hl => (plainMusicLine_parts l (h l hl)).2.2.1
  have hsplit : splitNl (mkFragment body) = s2l "K:C" :: splitNl (joinNl body) := by
    rw [show mkFragment body = s2l "K:C" ++ '\n' :: joinNl body from rfl, splitNl_append,
      splitNl_no_nl (s2l "K:C") (by decide)]
    rfl
  rw [count_bars_eq_barsOfLines, hsplit,
    collectMusic_cons_headerSkip true _ _ (by decide) (by decide) (by decide),
    splitNl_joinNl body hne hnl, collectMusic_plain body h]

/-! ### Header consumption -/

theorem pyStrip_tagline (a : Char) (content : List Char) (hsp : isPySpace a = false) :
    pyStrip (a :: ':' :: content) = a :: ':' :: rstrip content := by
  have h := pyStrip_append_keep [a, ':'] content (by simp)
    (by
      intro c hc
      rcases List.mem_cons.mp hc with rfl | hc2
      · exact hsp
      · rcases List.mem_cons.mp hc2 with rfl | hc3
        · decide
        · exact absurd hc3 (List.not_mem_nil c))
  simpa using h

theorem collectMusic_cons_tagline (f : Bool) (a : Char) (content : List Char)
    (rest : List (List Char)) (ha : [a, ':'] ∈ headerTagStrs) (hne : a ≠ '%')
    (hsp : isPySpace a = false) :
    collectMusic f ((a :: ':' :: content) :: rest) = collectMusic f rest := by
  have hstrip := pyStrip_tagline a content hsp
  apply collectMusic_cons_headerSkip
  · rw [hstrip]; simp
  · rw [hstrip]
    exact isHeaderTag_of_mem [a, ':'] _ ha (by simp [startsWithL, List.isPrefixOf])
  · rw [hstrip, show s2l "%%" = '%' :: ['%'] from rfl]
    exact startsWithL_cons_of_ne '%' ['%'] a _ (Ne.symm hne)

theorem flagAfter_cons_tagline (f : Bool) (a : Char) (content : List Char)
    (rest : List (List Char)) (ha : [a, ':'] ∈ headerTagStrs) (hne : a ≠ '%')
    (hsp : isPySpace a = false) :
    flagAfter f ((a :: ':' :: content) :: rest) = flagAfter f rest := by
  have hstrip := pyStrip_tagline a content hsp
  apply flagAfter_cons_headerSkip
  · rw [hstrip]; simp
  · rw [hstrip]
    exact isHeaderTag_of_mem [a, ':'] _ ha (by simp [startsWithL, List.isPrefixOf])
  · rw [hstrip, show s2l "%%" = '%' :: ['%'] from rfl]
    exact startsWithL_cons_of_ne '%' ['%'] a _ (Ne.symm hne)

theorem collectMusic_cons_midiPre (f : Bool) (tail : List Char)
    (rest : List (List Char)) :
    collectMusic f ((s2l "%%MIDI" ++ tail) :: rest) = collectMusic f rest := by
  apply collectMusic_cons_midi
  rw [pyStrip_append_keep (s2l "%%MIDI") tail (by decide) (by decide)]
  exact startsWithL_self_append _ _

theorem flagAfter_cons_midiPre (f : Bool) (tail : List Char)
    (rest : List (List Char)) :
    flagAfter f ((s2l "%%MIDI" ++ tail) :: rest) = flagAfter f rest := by
  apply flagAfter_cons_midi
  rw [pyStrip_append_keep (s2l "%%MIDI") tail (by decide) (by decide)]
  exact startsWithL_self_append _ _

theorem collectMusic_normalHeader (f : Bool) (title composer time_sig key : List Char)
    (tempo midi_program : Nat) (rest : List (List Char)) :
    collectMusic f (normalHeaderLines title composer tempo time_sig key midi_program ++ rest)
      = collectMusic true rest := by
  show collectMusic f ((s2l "X:1") :: (s2l "T:" ++ title) :: (s2l "C:" ++ composer) ::
      (s2l "M:" ++ time_sig) :: (s2l "L:1/8") :: (s2l "Q:1/4=" ++ natChars tempo) ::
      (s2l "K:" ++ key) :: (s2l "V:1") ::
      (s2l "%%MIDI program " ++ natChars midi_program) :: rest) = collectMusic true rest
  rw [collectMusic_cons_headerSkip f _ _ (by decide) (by decide) (by decide),
    show s2l "T:" ++ title = 'T' :: ':' :: title from rfl,
    collectMusic_cons_tagline f 'T' title _ (by decide) (by decide) (by decide),
    show s2l "C:" ++ composer = 'C' :: ':' :: composer from rfl,
    collectMusic_cons_tagline f 'C' composer _ (by decide) (by decide) (by decide),
    show s2l "M:" ++ time_sig = 'M' :: ':' :: time_sig from rfl,
    collectMusic_cons_tagline f 'M' time_sig _ (by decide) (by decide) (by decide),
    collectMusic_cons_headerSkip f _ _ (by decide) (by decide) (by decide),
    show s2l "Q:1/4=" ++ natChars tempo
      = 'Q' :: ':' :: (s2l "1/4=" ++ natChars tempo) from rfl,
    collectMusic_cons_tagline f 'Q' _ _ (by decide) (by decide) (by decide),
    show s2l "K:" ++ key = 'K' :: ':' :: key from rfl,
    collectMusic_cons_tagline f 'K' key _ (by decide) (by decide) (by decide),
    collectMusic_cons_voice f _ _ (by decide),
    show startsWithL (s2l "V:1") (pyStrip (s2l "V:1")) = true from by decide,
    show s2l "%%MIDI program " ++ natChars midi_program
      = s2l "%%MIDI" ++ (s2l " program " ++ natChars midi_program) from rfl,
    collectMusic_cons_midiPre _ _ _]

theorem collectMusic_percHeader (f : Bool) (title composer time_sig : List Char)
    (tempo : Nat) (rest : List (List Char)) :
    collectMusic f (percHeaderLines title composer tempo time_sig ++ rest)
      = collectMusic true rest := by
  show collectMusic f ((s2l "X:1") :: (s2l "T:" ++ title ++ s2l " - Drums  ") ::
      (s2l "C:" ++ composer) :: (s2l "M:" ++ time_sig) :: (s2l "L:1/8") ::
      (s2l "Q:1/4=" ++ natChars tempo) :: (s2l "K:C perc") ::
      (s2l "V:1 name=\"Kick\"") :: (s2l "%%MIDI program 128") ::
      (s2l "%%MIDI channel 10") :: rest) = collectMusic true rest
  rw [collectMusic_cons_headerSkip f _ _ (by decide) (by decide) (by decide),
    show s2l "T:" ++ title ++ s2l " - Drums  "
      = 'T' :: ':' :: (title ++ s2l " - Drums  ") from rfl,
    collectMusic_cons_tagline f 'T' _ _ (by decide) (by decide) (by decide),
    show s2l "C:" ++ composer = 'C' :: ':' :: composer from rfl,
    collectMusic_cons_tagline f 'C' composer _ (by decide) (by decide) (by decide),
    show s2l "M:" ++ time_sig = 'M' :: ':' :: time_sig from rfl,
    collectMusic_cons_tagline f 'M' time_sig _ (by decide) (by decide) (by decide),
    collectMusic_cons_headerSkip f _ _ (by decide) (by decide) (by decide),
    show s2l "Q:1/4=" ++ natChars tempo
      = 'Q' :: ':' :: (s2l "1/4=" ++ natChars tempo) from rfl,
    collectMusic_cons_tagline f 'Q' _ _ (by decide) (by decide) (by decide),
    collectMusic_cons_headerSkip f _ _ (by decide) (by decide) (by decide),
    collectMusic_cons_voice f _ _ (by decide),
    show startsWithL (s2l "V:1") (pyStrip (s2l "V:1 name=\"Kick\"")) = true from by decide,
    collectMusic_cons_midi _ _ _ (by decide),
    collectMusic_cons_midi _ _ _ (by decide)]

/-! ### Summing bar tallies -/

theorem barsOfLines_append (xs ys : List (List Char))
    (hx : xs.any (hasSub2 '|' ']') = false) (hy : ys.any (hasSub2 '|' ']') = false) :
    barsOfLines (xs ++ ys) = barsOfLines xs + barsOfLines ys := by
  unfold barsOfLines
  rw [List.map_append, List.sum_append, List.map_append, List.sum_append,
    List.map_append, List.sum_append, List.map_append, List.sum_append,
    List.any_append, hx, hy, if_neg (by simp : ¬((false || false) = true))]
  push_cast
  ring

theorem any_flatten_false {α : Type} (p : α → Bool) :
    ∀ bodies : List (List α), (∀ b ∈ bodies, b.any p = false) →
      bodies.flatten.any p = false
  | [], _ => rfl
  | b :: bodies, h => by
    rw [List.flatten_cons, List.any_append, h b (List.mem_cons_self b bodies),
      any_flatten_false p bodies (fun m hm => h m (List.mem_cons_of_mem b hm))]
    rfl

theorem barsOfLines_flatten :
    ∀ bodies : List (List (List Char)),
      (∀ body ∈ bodies, body.any (hasSub2 '|' ']') = false) →
      barsOfLines bodies.flatten = (bodies.map barsOfLines).sum
  | [], _ => by simp [barsOfLines]
  | b :: bodies, h => by
    rw [List.flatten_cons,
      barsOfLines_append b bodies.flatten (h b (List.mem_cons_self b bodies))
        (any_flatten_false _ bodies (fun m hm => h m (List.mem_cons_of_mem b hm))),
      barsOfLines_flatten bodies (fun m hm => h m (List.mem_cons_of_mem b hm))]
    simp

theorem splitNl_joinNl_parts :
    ∀ parts : List (List (List Char)), parts ≠ [] →
      (∀ body ∈ parts, body ≠ [] ∧ ∀ l ∈ body, '\n' ∉ l) →
      splitNl (joinNl (parts.map joinNl)) = parts.flatten
  | [], h, _ => absurd rfl h
  | [b], _, h => by
    obtain ⟨hb, hl⟩ := h b (List.mem_cons_self b [])
    rw [show (List.map joinNl [b]) = [joinNl b] from rfl,
      show joinNl [joinNl b] = joinNl b from rfl, splitNl_joinNl b hb hl]
    simp
  | b :: b' :: parts, _, h => by
    obtain ⟨hb, hl⟩ := h b (List.mem_cons_self b (b' :: parts))
    rw [show List.map joinNl (b :: b' :: parts) = joinNl b :: List.map joinNl (b' :: parts)
        from rfl,
      joinNl_cons (joinNl b) (List.map joinNl (b' :: parts)) (by simp),
      splitNl_append, splitNl_joinNl b hb hl,
      splitNl_joinNl_parts (b' :: parts) (by simp)
        (fun m hm => h m (List.mem_cons_of_mem b hm))]
    rfl

theorem gatherParts_nonperc :
    ∀ cs : List (List Char),
      gatherParts false (cs.map some) = (cs.map read_section_file, [])
  | [] => rfl
  | c :: cs => by
    rw [show (c :: cs).map some = some c :: cs.map some from rfl]
    simp only [gatherParts, gatherParts_nonperc cs, if_neg (by simp : ¬(false = true))]
    rfl

theorem normalHeaderLines_no_nl (title composer time_sig key : List Char)
    (tempo midi_program : Nat) (ht : '\n' ∉ title) (hc : '\n' ∉ composer)
    (hm : '\n' ∉ time_sig) (hk : '\n' ∉ key) :
    ∀ l ∈ normalHeaderLines title composer tempo time_sig key midi_program, '\n' ∉ l := by
  intro l hl
  simp only [normalHeaderLines, List.mem_cons, List.not_mem_nil, or_false] at hl
  rcases hl with rfl | rfl | rfl | rfl | rfl | rfl | rfl | rfl | rfl
  · decide
  · intro hmem
    rcases List.mem_append.mp hmem with h1 | h1
    · revert h1; decide
    · exact ht h1
  · intro hmem
    rcases List.mem_append.mp hmem with h1 | h1
    · revert h1; decide
    · exact hc h1
  · intro hmem
    rcases List.mem_append.mp hmem with h1 | h1
    · revert h1; decide
    · exact hm h1
  · decide
  · intro hmem
    rcases List.mem_append.mp hmem with h1 | h1
    · revert h1; decide
    · exact natChars_ne_nl tempo h1
  · intro hmem
    rcases List.mem_append.mp hmem with h1 | h1
    · revert h1; decide
    · exact hk h1
  · decide
  · intro hmem
    rcases List.mem_append.mp hmem with h1 | h1
    · revert h1; decide
    · exact natChars_ne_nl midi_program h1

theorem percHeaderLines_no_nl (title composer time_sig : List Char) (tempo : Nat)
    (ht : '\n' ∉ title) (hc : '\n' ∉ composer) (hm : '\n' ∉ time_sig) :
    ∀ l ∈ percHeaderLines title composer tempo time_sig, '\n' ∉ l := by
  intro l hl
  simp only [percHeaderLines, List.mem_cons, List.not_mem_nil, or_false] at hl
  rcases hl with rfl | rfl | rfl | rfl | rfl | rfl | rfl | rfl | rfl | rfl
  · decide
  · intro hmem
    rcases List.mem_append.mp hmem with h1 | h1
    · rcases List.mem_append.mp h1 with h2 | h2
      · revert h2; decide
      · exact ht h2
    · revert h1; decide
  · intro hmem
    rcases List.mem_append.mp hmem with h1 | h1
    · revert h1; decide
    · exact hc h1
  · intro hmem
    rcases List.mem_append.mp hmem with h1 | h1
    · revert h1; decide
    · exact hm h1
  · decide
  · intro hmem
    rcases List.mem_append.mp hmem with h1 | h1
    · revert h1; decide
    · exact natChars_ne_nl tempo h1
  · decide
  · decide
  · decide
  · decide

/-- Counterexample to claim C4 as stated: a fragment file whose content is a
bare music line with no `K:` header counts one bar on its own, but
`read_section_file` extracts nothing from it, so the combined track counts
zero bars instead of the fragments' sum. -/
theorem claim_C4_counterexample :
    count_bars (s2l "C4 C4 C4 C4 |") = 1 ∧
    count_bars (combine_sections [some (s2l "C4 C4 C4 C4 |")]
      (s2l "Song") (s2l "Brian Edwards") 88 (s2l "4/4") (s2l "Cmin") 53 false) = 0 := by
  decide

/-- Claim C4, amended: for fragments in the standard section-file form — a
`K:` header line followed by plain single-voice music lines free of final-bar
markers — combining them in order yields a track whose bar count is the sum
of the fragments' individual bar counts. -/
theorem claim_C4_combined_bar_sum (bodies : List (List (List Char)))
    (title composer time_sig key : List Char) (tempo midi_program : Nat)
    (hbodies : ∀ body ∈ bodies, body ≠ [] ∧
      ∀ l ∈ body, plainMusicLine l = true ∧ hasSub2 '|' ']' l = false)
    (ht : '\n' ∉ title) (hc : '\n' ∉ composer) (hm : '\n' ∉ time_sig)
    (hk : '\n' ∉ key) :
    count_bars (combine_sections (bodies.map (fun b => some (mkFragment b)))
        title composer tempo time_sig key midi_program false)
      = (bodies.map (fun b => count_bars (mkFragment b))).sum := by
  have hgather : gatherParts false (bodies.map (fun b => some (mkFragment b)))
      = ((bodies.map mkFragment).map read_section_file, []) := by
    rw [show bodies.map (fun b => some (mkFragment b))
        = (bodies.map mkFragment).map some from (List.map_map some mkFragment bodies).symm]
    exact gatherParts_nonperc (bodies.map mkFragment)
  have hread : (bodies.map mkFragment).map read_section_file = bodies.map joinNl := by
    rw [List.map_map]
    exact List.map_congr_left (fun b hb => read_section_file_mkFragment b
      (hbodies b hb).1 (fun l hl => ((hbodies b hb).2 l hl).1))
  have hcomb : combine_sections (bodies.map (fun b => some (mkFragment b)))
      title composer tempo time_sig key midi_program false
      = normalHeader title composer tempo time_sig key midi_program
        ++ joinNl (bodies.map joinNl) := by
    rw [combine_sections, hgather]
    rw [hread]
    simp
  rw [hcomb]
  have hassoc : normalHeader title composer tempo time_sig key midi_program
      ++ joinNl (bodies.map joinNl)
      = joinNl (normalHeaderLines title composer tempo time_sig key midi_program)
        ++ '\n' :: joinNl (bodies.map joinNl) := by
    rw [normalHeader, List.append_assoc]
    rfl
  have hsplit : splitNl (joinNl (normalHeaderLines title composer tempo time_sig key
        midi_program) ++ '\n' :: joinNl (bodies.map joinNl))
      = normalHeaderLines title composer tempo time_sig key midi_program
        ++ splitNl (joinNl (bodies.map joinNl)) := by
    rw [splitNl_append, splitNl_joinNl _ (by simp [normalHeaderLines])
      (normalHeaderLines_no_nl title composer time_sig key tempo midi_program ht hc hm hk)]
  rw [count_bars_eq_barsOfLines, hassoc, hsplit, collectMusic_normalHeader]
  cases bodies with
  | nil => decide
  | cons b bs =>
    have hparts : splitNl (joinNl ((b :: bs).map joinNl)) = (b :: bs).flatten :=
      splitNl_joinNl_parts (b :: bs) (by simp)
        (fun body hb => ⟨(hbodies body hb).1,
          fun l hl => (plainMusicLine_parts l ((hbodies body hb).2 l hl).1).2.2.1⟩)
    have hplainflat : ∀ l ∈ (b :: bs).flatten, plainMusicLine l = true := by
      intro l hl
      obtain ⟨body, hb, hlb⟩ := List.mem_flatten.mp hl
      exact ((hbodies body hb).2 l hlb).1
    have hnofinal : ∀ body ∈ b :: bs, body.any (hasSub2 '|' ']') = false := by
      intro body hb
      rw [List.any_eq_false]
      intro l hl
      simp [((hbodies body hb).2 l hl).2]
    rw [hparts, collectMusic_plain _ hplainflat, barsOfLines_flatten _ hnofinal]
    refine congrArg List.sum ?_
    refine List.map_congr_left ?_
    intro body hb
    exact (count_bars_mkFragment body (hbodies body hb).1
      (fun l hl => ((hbodies body hb).2 l hl).1)).symm

/-- Witness for claim C4 (amended): combining a two-bar and a four-bar
fragment yields their sum; the individual counts are 2 and 4. -/
theorem claim_C4_witness :
    count_bars (combine_sections
        [some (mkFragment [s2l "C8 | C8 |"]),
         some (mkFragment [s2l "C4 D4 | E4 F4 | G4 A4 | B8 |"])]
        (s2l "Test Song") (s2l "Test Composer") 120 (s2l "4/4") (s2l "C") 33 false)
      = count_bars (mkFragment [s2l "C8 | C8 |"])
        + count_bars (mkFragment [s2l "C4 D4 | E4 F4 | G4 A4 | B8 |"]) ∧
    count_bars (mkFragment [s2l "C8 | C8 |"]) = 2 ∧
    count_bars (mkFragment [s2l "C4 D4 | E4 F4 | G4 A4 | B8 |"]) = 4 := by
  refine ⟨?_, by decide, by decide⟩
  have h := claim_C4_combined_bar_sum
    [[s2l "C8 | C8 |"], [s2l "C4 D4 | E4 F4 | G4 A4 | B8 |"]]
    (s2l "Test Song") (s2l "Test Composer") (s2l "4/4") (s2l "C") 120 33
    (by decide) (by decide) (by decide) (by decide) (by decide)
  simpa using h

/-! ### Substring containment lemmas -/

theorem hasSubstr_cons_of (p : List Char) (c : Char) (rest : List Char)
    (h : hasSubstr p rest = true) : hasSubstr p (c :: rest) = true := by
  simp [hasSubstr, h]

theorem hasSubstr_append_right (p : List Char) :
    ∀ u v : List Char, hasSubstr p v = true → hasSubstr p (u ++ v) = true
  | [], _, h => h
  | c :: u, v, h =>
    hasSubstr_cons_of p c (u ++ v) (hasSubstr_append_right p u v h)

theorem hasSubstr_here (p t : List Char) : hasSubstr p (p ++ t) = true := by
  cases hp : p ++ t with
  | nil =>
    have : p = [] := by
      cases p with
      | nil => rfl
      | cons a q => simp at hp
    simp [hasSubstr, this]
  | cons c rest =>
    rw [hasSubstr, ← hp, startsWithL_self_append]
    simp

/-! ### Percussion fragment parsing -/

theorem percParse_cons (cur : Nat) (l : List Char) (rest : List (List Char)) :
    percParse cur (l :: rest) =
      (if ((pyStrip l).isEmpty || percSkipTags.any (fun p => startsWithL p (pyStrip l)))
       then percParse cur rest
       else if startsWithL (s2l "V:2") (pyStrip l) then percParse 2 rest
       else if startsWithL (s2l "V:1") (pyStrip l) then percParse 1 rest
       else if startsWithL (s2l "%%MIDI") (pyStrip l) then percParse cur rest
       else if cur = 1 then
         ((pyStrip l) :: (percParse cur rest).1, (percParse cur rest).2)
       else if cur = 2 then
         ((percParse cur rest).1, (pyStrip l) :: (percParse cur rest).2)
       else percParse cur rest) := rfl

theorem percSkipTags_false_of_plain (l : List Char) (hhd : isHeaderTag l = false) :
    percSkipTags.any (fun p => startsWithL p l) = false := by
  have hX := not_tag_of_not_headerTag (s2l "X:") l (by decide) hhd
  have hT := not_tag_of_not_headerTag (s2l "T:") l (by decide) hhd
  have hC := not_tag_of_not_headerTag (s2l "C:") l (by decide) hhd
  have hM := not_tag_of_not_headerTag (s2l "M:") l (by decide) hhd
  have hL := not_tag_of_not_headerTag (s2l "L:") l (by decide) hhd
  have hQ := not_tag_of_not_headerTag (s2l "Q:") l (by decide) hhd
  have hK := not_tag_of_not_headerTag (s2l "K:") l (by decide) hhd
  have hP := not_tag_of_not_headerTag (s2l "%") l (by decide) hhd
  simp only [percSkipTags, List.any_cons, List.any_nil, hX, hT, hC, hM, hL, hQ, hK, hP,
    Bool.or_self, Bool.or_false]

theorem percParse_cons_skip (cur : Nat) (l : List Char) (rest : List (List Char))
    (h : ((pyStrip l).isEmpty
      || percSkipTags.any (fun p => startsWithL p (pyStrip l))) = true) :
    percParse cur (l :: rest) = percParse cur rest := by
  rw [percParse_cons, if_pos h]

theorem percParse_cons_voice2 (cur : Nat) (l : List Char) (rest : List (List Char))
    (hskip : ((pyStrip l).isEmpty
      || percSkipTags.any (fun p => startsWithL p (pyStrip l))) = false)
    (hv2 : startsWithL (s2l "V:2") (pyStrip l) = true) :
    percParse cur (l :: rest) = percParse 2 rest := by
  rw [percParse_cons, if_neg (by simp [hskip]), if_pos hv2]

theorem percParse_cons_voice1 (cur : Nat) (l : List Char) (rest : List (List Char))
    (hskip : ((pyStrip l).isEmpty
      || percSkipTags.any (fun p => startsWithL p (pyStrip l))) = false)
    (hv2 : startsWithL (s2l "V:2") (pyStrip l) = false)
    (hv1 : startsWithL (s2l "V:1") (pyStrip l) = true) :
    percParse cur (l :: rest) = percParse 1 rest := by
  rw [percParse_cons, if_neg (by simp [hskip]), if_neg (by simp [hv2]), if_pos hv1]

theorem percParse_plain_conds (l : List Char) (h : plainMusicLine l = true) :
    ((pyStrip l).isEmpty
        || percSkipTags.any (fun p => startsWithL p (pyStrip l))) = false
      ∧ startsWithL (s2l "V:2") (pyStrip l) = false
      ∧ startsWithL (s2l "V:1") (pyStrip l) = false
      ∧ startsWithL (s2l "%%MIDI") (pyStrip l) = false := by
  obtain ⟨hstrip, hne, _, hhd, hv⟩ := plainMusicLine_parts l h
  refine ⟨?_, ?_, ?_, ?_⟩
  · rw [hstrip]
    simp [List.isEmpty_eq_false.mpr hne, percSkipTags_false_of_plain l hhd]
  · rw [hstrip]
    by_contra hcon
    rw [Bool.not_eq_false] at hcon
    have h1 := startsWithL_of_append (s2l "V:") ['2'] l hcon
    rw [hv] at h1
    exact Bool.false_ne_true h1
  · rw [hstrip]
    by_contra hcon
    rw [Bool.not_eq_false] at hcon
    have h1 := startsWithL_of_append (s2l "V:") ['1'] l hcon
    rw [hv] at h1
    exact Bool.false_ne_true h1
  · rw [hstrip]
    exact midi_false_of_plain l hhd

theorem percParse_one_plain :
    ∀ (v1 : List (List Char)) (rest : List (List Char)),
      (∀ l ∈ v1, plainMusicLine l = true) →
      percParse 1 (v1 ++ rest)
        = (v1 ++ (percParse 1 rest).1, (percParse 1 rest).2)
  | [], rest, _ => by simp
  | l :: v1, rest, h => by
    obtain ⟨hskip, hv2, hv1, hmidi⟩ :=
      percParse_plain_conds l (h l (List.mem_cons_self l v1))
    have hstrip := (plainMusicLine_parts l (h l (List.mem_cons_self l v1))).1
    rw [List.cons_append, percParse_cons, if_neg (by simp [hskip]),
      if_neg (by simp [hv2]), if_neg (by simp [hv1]), if_neg (by simp [hmidi]),
      if_pos rfl, percParse_one_plain v1 rest
        (fun m hm => h m (List.mem_cons_of_mem l hm)), hstrip]
    rfl

theorem percParse_two_plain :
    ∀ v2 : List (List Char), (∀ l ∈ v2, plainMusicLine l = true) →
      percParse 2 v2 = ([], v2)
  | [], _ => rfl
  | l :: v2, h => by
    obtain ⟨hskip, hv2, hv1, hmidi⟩ :=
      percParse_plain_conds l (h l (List.mem_cons_self l v2))
    have hstrip := (plainMusicLine_parts l (h l (List.mem_cons_self l v2))).1
    rw [percParse_cons, if_neg (by simp [hskip]), if_neg (by simp [hv2]),
      if_neg (by simp [hv1]), if_neg (by simp [hmidi]), if_neg (by decide),
      if_pos rfl, percParse_two_plain v2 (fun m hm => h m (List.mem_cons_of_mem l hm)),
      hstrip]

theorem mkPercFragment_shape (v1 v2 : List (List Char)) :
    mkPercFragment v1 v2
      = s2l "K:C perc" ++ '\n' :: (s2l "V:1" ++ '\n' ::
          (joinNl v1 ++ '\n' :: (s2l "V:2" ++ '\n' :: joinNl v2))) := by
  show (s2l "K:C perc\nV:1\n" ++ joinNl v1 ++ s2l "\nV:2\n") ++ joinNl v2 = _
  rw [List.append_assoc, List.append_assoc]
  rfl

theorem splitNl_mkPercFragment (v1 v2 : List (List Char))
    (h1ne : v1 ≠ []) (h2ne : v2 ≠ [])
    (hnl1 : ∀ l ∈ v1, '\n' ∉ l) (hnl2 : ∀ l ∈ v2, '\n' ∉ l) :
    splitNl (mkPercFragment v1 v2)
      = s2l "K:C perc" :: s2l "V:1" :: (v1 ++ (s2l "V:2" :: v2)) := by
  rw [mkPercFragment_shape, splitNl_append, splitNl_append, splitNl_append,
    splitNl_append, splitNl_no_nl (s2l "K:C perc") (by decide),
    splitNl_no_nl (s2l "V:1") (by decide), splitNl_no_nl (s2l "V:2") (by decide),
    splitNl_joinNl v1 h1ne hnl1, splitNl_joinNl v2 h2ne hnl2]
  rfl

theorem percParse_mkPercFragment (v1 v2 : List (List Char))
    (h1ne : v1 ≠ []) (h2ne : v2 ≠ [])
    (h1 : ∀ l ∈ v1, plainMusicLine l = true) (h2 : ∀ l ∈ v2, plainMusicLine l = true) :
    percParse 1 (splitNl (mkPercFragment v1 v2)) = (v1, v2) := by
  rw [splitNl_mkPercFragment v1 v2 h1ne h2ne
      (fun l hl => (plainMusicLine_parts l (h1 l hl)).2.2.1)
      (fun l hl => (plainMusicLine_parts l (h2 l hl)).2.2.1),
    percParse_cons_skip 1 _ _ (by decide),
    percParse_cons_voice1 1 _ _ (by decide) (by decide) (by decide),
    percParse_one_plain v1 _ h1,
    percParse_cons_voice2 1 _ _ (by decide) (by decide),
    percParse_two_plain v2 h2]
  simp

theorem gatherParts_perc :
    ∀ pairs : List ((List (List Char)) × (List (List Char))),
      (∀ p ∈ pairs, (p.1 ≠ [] ∧ ∀ l ∈ p.1, plainMusicLine l = true)
        ∧ (p.2 ≠ [] ∧ ∀ l ∈ p.2, plainMusicLine l = true)) →
      gatherParts true ((pairs.map (fun p => mkPercFragment p.1 p.2)).map some)
        = (pairs.map (fun p => joinNl p.1), pairs.map (fun p => joinNl p.2))
  | [], _ => rfl
  | p :: pairs, h => by
    obtain ⟨⟨h1ne, h1⟩, h2ne, h2⟩ := h p (List.mem_cons_self p pairs)
    have ih := gatherParts_perc pairs (fun q hq => h q (List.mem_cons_of_mem p hq))
    rw [show ((p :: pairs).map (fun q => mkPercFragment q.1 q.2)).map some
        = some (mkPercFragment p.1 p.2)
          :: ((pairs.map (fun q => mkPercFragment q.1 q.2)).map some) from rfl]
    simp only [gatherParts, ih, percParse_mkPercFragment p.1 p.2 h1ne h2ne h1 h2,
      if_pos rfl, List.isEmpty_eq_false.mpr h1ne, List.isEmpty_eq_false.mpr h2ne,
      Bool.not_false, if_pos rfl]
    rfl

theorem hasSubstr_nil_pat : ∀ s : List Char, hasSubstr [] s = true
  | [] => rfl
  | _ :: rest => by simp [hasSubstr, startsWithL, List.isPrefixOf]

theorem startsWithL_extend (p s t : List Char) (h : startsWithL p s = true) :
    startsWithL p (s ++ t) = true := by
  obtain ⟨r, hr⟩ := startsWithL_exists_append p s h
  rw [hr, List.append_assoc]
  exact startsWithL_self_append p (r ++ t)

theorem hasSubstr_append_left (p : List Char) :
    ∀ u v : List Char, hasSubstr p u = true → hasSubstr p (u ++ v) = true
  | [], v, h => by
    have hp : p = [] := by
      have : p.isEmpty = true := h
      simpa [List.isEmpty_iff] using this
    rw [hp]
    exact hasSubstr_nil_pat v
  | c :: u, v, h => by
    rw [List.cons_append, hasSubstr]
    rcases Bool.or_eq_true_iff.mp h with h1 | h1
    · rw [show (c : Char) :: (u ++ v) = (c :: u) ++ v from rfl,
        startsWithL_extend p (c :: u) v h1]
      simp
    · rw [hasSubstr_append_left p u v h1]
      simp

/-- Claim C6: combining percussion fragments that contain two voices yields
an output containing both a `V:1` and a `V:2` voice block, and `count_bars`
on that output equals the bar count of the concatenated voice-1 content
only — the snare voice contributes nothing. -/
theorem claim_C6_percussion_combined
    (pairs : List ((List (List Char)) × (List (List Char))))
    (title composer time_sig key : List Char) (tempo midi_program : Nat)
    (hpairs : pairs ≠ [])
    (hgood : ∀ p ∈ pairs, (p.1 ≠ [] ∧ ∀ l ∈ p.1, plainMusicLine l = true)
      ∧ (p.2 ≠ [] ∧ ∀ l ∈ p.2, plainMusicLine l = true))
    (ht : '\n' ∉ title) (hc : '\n' ∉ composer) (hm : '\n' ∉ time_sig) :
    hasSubstr (s2l "V:1")
        (combine_sections ((pairs.map (fun p => mkPercFragment p.1 p.2)).map some)
          title composer tempo time_sig key midi_program true) = true
    ∧ hasSubstr (s2l "V:2")
        (combine_sections ((pairs.map (fun p => mkPercFragment p.1 p.2)).map some)
          title composer tempo time_sig key midi_program true) = true
    ∧ count_bars
        (combine_sections ((pairs.map (fun p => mkPercFragment p.1 p.2)).map some)
          title composer tempo time_sig key midi_program true)
      = count_bars (joinNl (pairs.map (fun p => joinNl p.1))) := by
  have hgather := gatherParts_perc pairs hgood
  have hne2 : pairs.map (fun p => joinNl p.2) ≠ [] := by simp [hpairs]
  have hcomb : combine_sections ((pairs.map (fun p => mkPercFragment p.1 p.2)).map some)
      title composer tempo time_sig key midi_program true
      = ((percHeader title composer tempo time_sig
          ++ joinNl (pairs.map (fun p => joinNl p.1)))
        ++ s2l "\nV:2 name=\"Snare\"\n%%MIDI program 128\n%%MIDI channel 10\n")
        ++ joinNl (pairs.map (fun p => joinNl p.2)) := by
    simp only [combine_sections, hgather]
    simp [List.isEmpty_eq_false.mpr hne2]
  have hshape : ((percHeader title composer tempo time_sig
          ++ joinNl (pairs.map (fun p => joinNl p.1)))
        ++ s2l "\nV:2 name=\"Snare\"\n%%MIDI program 128\n%%MIDI channel 10\n")
        ++ joinNl (pairs.map (fun p => joinNl p.2))
      = joinNl (percHeaderLines title composer tempo time_sig)
        ++ '\n' :: (joinNl (pairs.map (fun p => joinNl p.1))
          ++ '\n' :: (s2l "V:2 name=\"Snare\""
            ++ '\n' :: (s2l "%%MIDI program 128"
              ++ '\n' :: (s2l "%%MIDI channel 10"
                ++ '\n' :: joinNl (pairs.map (fun p => joinNl p.2)))))) := by
    rw [percHeader]
    simp only [List.append_assoc]
    rfl
  have hplain1 : ∀ l ∈ (pairs.map (fun p => p.1)).flatten, plainMusicLine l = true := by
    intro l hl
    obtain ⟨body, hb, hlb⟩ := List.mem_flatten.mp hl
    obtain ⟨q, hq, rfl⟩ := List.mem_map.mp hb
    exact (hgood q hq).1.2 l hlb
  have hplain2 : ∀ l ∈ (pairs.map (fun p => p.2)).flatten, plainMusicLine l = true := by
    intro l hl
    obtain ⟨body, hb, hlb⟩ := List.mem_flatten.mp hl
    obtain ⟨q, hq, rfl⟩ := List.mem_map.mp hb
    exact (hgood q hq).2.2 l hlb
  have hv1split : splitNl (joinNl (pairs.map (fun p => joinNl p.1)))
      = (pairs.map (fun p => p.1)).flatten := by
    rw [show pairs.map (fun p => joinNl p.1) = (pairs.map (fun p => p.1)).map joinNl from by
      rw [List.map_map]
      rfl]
    exact splitNl_joinNl_parts _ (by simp [hpairs])
      (fun body hb => by
        obtain ⟨q, hq, rfl⟩ := List.mem_map.mp hb
        exact ⟨(hgood q hq).1.1,
          fun l hl => (plainMusicLine_parts l ((hgood q hq).1.2 l hl)).2.2.1⟩)
  have hv2split : splitNl (joinNl (pairs.map (fun p => joinNl p.2)))
      = (pairs.map (fun p => p.2)).flatten := by
    rw [show pairs.map (fun p => joinNl p.2) = (pairs.map (fun p => p.2)).map joinNl from by
      rw [List.map_map]
      rfl]
    exact splitNl_joinNl_parts _ (by simp [hpairs])
      (fun body hb => by
        obtain ⟨q, hq, rfl⟩ := List.mem_map.mp hb
        exact ⟨(hgood q hq).2.1,
          fun l hl => (plainMusicLine_parts l ((hgood q hq).2.2 l hl)).2.2.1⟩)
  have hlines : splitNl (joinNl (percHeaderLines title composer tempo time_sig)
        ++ '\n' :: (joinNl (pairs.map (fun p => joinNl p.1))
          ++ '\n' :: (s2l "V:2 name=\"Snare\""
            ++ '\n' :: (s2l "%%MIDI program 128"
              ++ '\n' :: (s2l "%%MIDI channel 10"
                ++ '\n' :: joinNl (pairs.map (fun p => joinNl p.2)))))))
      = percHeaderLines title composer tempo time_sig
        ++ ((pairs.map (fun p => p.1)).flatten
          ++ (s2l "V:2 name=\"Snare\"" :: s2l "%%MIDI program 128"
            :: s2l "%%MIDI channel 10" :: (pairs.map (fun p => p.2)).flatten)) := by
    rw [splitNl_append, splitNl_append, splitNl_append, splitNl_append, splitNl_append,
      splitNl_joinNl _ (by simp [percHeaderLines])
        (percHeaderLines_no_nl title composer time_sig tempo ht hc hm),
      splitNl_no_nl (s2l "V:2 name=\"Snare\"") (by decide),
      splitNl_no_nl (s2l "%%MIDI program 128") (by decide),
      splitNl_no_nl (s2l "%%MIDI channel 10") (by decide), hv1split, hv2split]
    simp
  rw [hcomb, hshape]
  refine ⟨?_, ?_, ?_⟩
  · apply hasSubstr_append_left
    apply hasSubstr_append_right
    apply hasSubstr_cons_of
    apply hasSubstr_append_right
    apply hasSubstr_cons_of
    apply hasSubstr_append_right
    apply hasSubstr_cons_of
    apply hasSubstr_append_right
    apply hasSubstr_cons_of
    apply hasSubstr_append_right
    apply hasSubstr_cons_of
    apply hasSubstr_append_right
    apply hasSubstr_cons_of
    apply hasSubstr_append_right
    apply hasSubstr_cons_of
    exact hasSubstr_here (s2l "V:1") _
  · apply hasSubstr_append_right
    apply hasSubstr_cons_of
    apply hasSubstr_append_right
    apply hasSubstr_cons_of
    exact hasSubstr_here (s2l "V:2") _
  · rw [count_bars_eq_barsOfLines, count_bars_eq_barsOfLines, hlines, hv1split]
    rw [collectMusic_percHeader]
    rw [collectMusic_append]
    rw [collectMusic_plain _ hplain1]
    rw [flagAfter_plain _ true hplain1]
    rw [collectMusic_cons_voice true _ _ (by decide)]
    rw [show startsWithL (s2l "V:1") (pyStrip (s2l "V:2 name=\"Snare\"")) = false
      from by decide]
    rw [collectMusic_cons_midi _ _ _ (by decide)]
    rw [collectMusic_cons_midi _ _ _ (by decide)]
    rw [collectMusic_plain_false _ hplain2, List.append_nil]

/-- Witness for claim C6: one percussion fragment with a two-bar kick voice
and a one-bar snare voice; the combined track holds both voice blocks and
counts the kick's two bars. -/
theorem claim_C6_witness :
    (hasSubstr (s2l "V:1") (combine_sections
          [some (mkPercFragment [s2l "C4 C4 | C4 C4 |"] [s2l "z4 E4 |"])]
          (s2l "Song") (s2l "Me") 88 (s2l "4/4") (s2l "Cmin") 53 true) = true
      ∧ hasSubstr (s2l "V:2") (combine_sections
          [some (mkPercFragment [s2l "C4 C4 | C4 C4 |"] [s2l "z4 E4 |"])]
          (s2l "Song") (s2l "Me") 88 (s2l "4/4") (s2l "Cmin") 53 true) = true
      ∧ count_bars (combine_sections
          [some (mkPercFragment [s2l "C4 C4 | C4 C4 |"] [s2l "z4 E4 |"])]
          (s2l "Song") (s2l "Me") 88 (s2l "4/4") (s2l "Cmin") 53 true)
        = count_bars (joinNl [joinNl [s2l "C4 C4 | C4 C4 |"]]))
    ∧ count_bars (joinNl [joinNl [s2l "C4 C4 | C4 C4 |"]]) = 2 := by
  constructor
  · have h := claim_C6_percussion_combined
      [([s2l "C4 C4 | C4 C4 |"], [s2l "z4 E4 |"])]
      (s2l "Song") (s2l "Me") (s2l "4/4") (s2l "Cmin") 88 53
      (by decide) (by decide) (by decide) (by decide) (by decide)
    exact h
  · decide

/-- Claim C7: generating a section template with an expected bar count of 4 —
for a melodic or a percussion instrument — and then counting its bars with
`count_bars` returns exactly 4. -/
theorem claim_C7_template_roundtrip
    (title sectionTitle instrumentTitle time_sig key : List Char) (is_perc : Bool)
    (ht : '\n' ∉ title) (hs : '\n' ∉ sectionTitle) (hi : '\n' ∉ instrumentTitle)
    (hm : '\n' ∉ time_sig) (hk : '\n' ∉ key) :
    count_bars (create_section_template title sectionTitle instrumentTitle
      time_sig key 4 is_perc) = 4 := by
  have hTnl : '\n' ∉ (title ++ (s2l " - " ++ (sectionTitle
      ++ (s2l " - " ++ instrumentTitle)))) := by
    simp [ht, hs, hi, (by decide : ('\n' : Char) ∉ s2l " - ")]
  cases is_perc with
  | false =>
    have hshape : create_section_template title sectionTitle instrumentTitle
        time_sig key 4 false
        = s2l "X:1" ++ '\n' :: ('T' :: ':' :: (title ++ (s2l " - " ++ (sectionTitle ++ (s2l " - " ++ instrumentTitle)))) ++ '\n' :: ('M' :: ':' :: time_sig ++ '\n' :: (s2l "L:1/8" ++ '\n' :: ('K' :: ':' :: key ++ '\n' :: (s2l "z8 | z8 | z8 | z8 |" ++ '\n' :: (s2l "% Expected: 4 bars" ++ '\n' :: ([] : List Char))))))) := by
      simp only [create_section_template, Bool.false_eq_true, eq_self_iff_true,
        if_true, if_false, List.append_assoc, List.cons_append]
      rfl
    rw [count_bars_eq_barsOfLines, hshape, splitNl_append, splitNl_append,
      splitNl_append, splitNl_append, splitNl_append, splitNl_append, splitNl_append,
      splitNl_no_nl (s2l "X:1") (by decide),
      splitNl_no_nl _ (fun hmem => by
        rcases List.mem_cons.mp hmem with h1 | h1
        · exact absurd h1 (by decide)
        rcases List.mem_cons.mp h1 with h2 | h2
        · exact absurd h2 (by decide)
        · exact hTnl h2),
      splitNl_no_nl _ (fun hmem => by
        rcases List.mem_cons.mp hmem with h1 | h1
        · exact absurd h1 (by decide)
        rcases List.mem_cons.mp h1 with h2 | h2
        · exact absurd h2 (by decide)
        · exact hm h2),
      splitNl_no_nl (s2l "L:1/8") (by decide),
      splitNl_no_nl _ (fun hmem => by
        rcases List.mem_cons.mp hmem with h1 | h1
        · exact absurd h1 (by decide)
        rcases List.mem_cons.mp h1 with h2 | h2
        · exact absurd h2 (by decide)
        · exact hk h2),
      splitNl_no_nl (s2l "z8 | z8 | z8 | z8 |") (by decide),
      splitNl_no_nl (s2l "% Expected: 4 bars") (by decide)]
    simp only [List.singleton_append, List.cons_append, List.nil_append]
    rw [collectMusic_cons_headerSkip true _ _ (by decide) (by decide) (by decide),
      collectMusic_cons_tagline true 'T' _ _ (by decide) (by decide) (by decide),
      collectMusic_cons_tagline true 'M' time_sig _ (by decide) (by decide) (by decide),
      collectMusic_cons_headerSkip true _ _ (by decide) (by decide) (by decide),
      collectMusic_cons_tagline true 'K' key _ (by decide) (by decide) (by decide),
      collectMusic_cons_keep true _ _ (by decide) (by decide) (by decide) (by decide),
      if_pos rfl,
      collectMusic_cons_headerSkip true _ _ (by decide) (by decide) (by decide),
      show splitNl ([] : List Char) = [[]] from rfl,
      collectMusic_cons_blank true _ _ (by decide)]
    decide
  | true =>
    have hshape : create_section_template title sectionTitle instrumentTitle
        time_sig key 4 true
        = s2l "X:1" ++ '\n' :: ('T' :: ':' :: (title ++ (s2l " - " ++ (sectionTitle ++ (s2l " - " ++ instrumentTitle)))) ++ '\n' :: ('M' :: ':' :: time_sig ++ '\n' :: (s2l "L:1/8" ++ '\n' :: (s2l "K:C perc" ++ '\n' :: (s2l "V:1 name=\"Kick\"" ++ '\n' :: (s2l "C4 C4 | C4 C4 | C4 C4 | C4 C4 |" ++ '\n' :: (s2l "V:2 name=\"Snare\"" ++ '\n' :: (s2l "z4 E4 | z4 E4 | z4 E4 | z4 E4 |" ++ '\n' :: (s2l "% Expected: 4 bars" ++ '\n' :: ([] : List Char)))))))))) := by
      simp only [create_section_template, Bool.false_eq_true, eq_self_iff_true,
        if_true, if_false, List.append_assoc, List.cons_append]
      rfl
    rw [count_bars_eq_barsOfLines, hshape, splitNl_append, splitNl_append,
      splitNl_append, splitNl_append, splitNl_append, splitNl_append, splitNl_append,
      splitNl_append, splitNl_append, splitNl_append,
      splitNl_no_nl (s2l "X:1") (by decide),
      splitNl_no_nl _ (fun hmem => by
        rcases List.mem_cons.mp hmem with h1 | h1
        · exact absurd h1 (by decide)
        rcases List.mem_cons.mp h1 with h2 | h2
        · exact absurd h2 (by decide)
        · exact hTnl h2),
      splitNl_no_nl _ (fun hmem => by
        rcases List.mem_cons.mp hmem with h1 | h1
        · exact absurd h1 (by decide)
        rcases List.mem_cons.mp h1 with h2 | h2
        · exact absurd h2 (by decide)
        · exact hm h2),
      splitNl_no_nl (s2l "L:1/8") (by decide),
      splitNl_no_nl (s2l "K:C perc") (by decide),
      splitNl_no_nl (s2l "V:1 name=\"Kick\"") (by decide),
      splitNl_no_nl (s2l "C4 C4 | C4 C4 | C4 C4 | C4 C4 |") (by decide),
      splitNl_no_nl (s2l "V:2 name=\"Snare\"") (by decide),
      splitNl_no_nl (s2l "z4 E4 | z4 E4 | z4 E4 | z4 E4 |") (by decide),
      splitNl_no_nl (s2l "% Expected: 4 bars") (by decide)]
    simp only [List.singleton_append, List.cons_append, List.nil_append]
    rw [collectMusic_cons_headerSkip true _ _ (by decide) (by decide) (by decide),
      collectMusic_cons_tagline true 'T' _ _ (by decide) (by decide) (by decide),
      collectMusic_cons_tagline true 'M' time_sig _ (by decide) (by decide) (by decide),
      collectMusic_cons_headerSkip true _ _ (by decide) (by decide) (by decide),
      collectMusic_cons_headerSkip true _ _ (by decide) (by decide) (by decide),
      collectMusic_cons_voice true _ _ (by decide),
      show startsWithL (s2l "V:1") (pyStrip (s2l "V:1 name=\"Kick\"")) = true
        from by decide,
      collectMusic_cons_keep true _ _ (by decide) (by decide) (by decide) (by decide),
      if_pos rfl,
      collectMusic_cons_voice true _ _ (by decide),
      show startsWithL (s2l "V:1") (pyStrip (s2l "V:2 name=\"Snare\"")) = false
        from by decide,
      collectMusic_cons_keep false _ _ (by decide) (by decide) (by decide) (by decide),
      if_neg (by simp),
      collectMusic_cons_headerSkip false _ _ (by decide) (by decide) (by decide),
      show splitNl ([] : List Char) = [[]] from rfl,
      collectMusic_cons_blank false _ _ (by decide)]
    decide

/-- Witness for claim C7: a concrete melodic template and a concrete
percussion template, both requested with four bars, each count four bars. -/
theorem claim_C7_witness :
    count_bars (create_section_template (s2l "Test Song") (s2l "Intro") (s2l "Bass")
        (s2l "4/4") (s2l "C") 4 false) = 4
    ∧ count_bars (create_section_template (s2l "Test Song") (s2l "Intro") (s2l "Drums")
        (s2l "4/4") (s2l "C") 4 true) = 4 := by
  constructor
  · exact claim_C7_template_roundtrip (s2l "Test Song") (s2l "Intro") (s2l "Bass")
      (s2l "4/4") (s2l "C") false (by decide) (by decide) (by decide) (by decide)
      (by decide)
  · exact claim_C7_template_roundtrip (s2l "Test Song") (s2l "Intro") (s2l "Drums")
      (s2l "4/4") (s2l "C") true (by decide) (by decide) (by decide) (by decide)
      (by decide)

/-! ### Consistency checking -/

theorem dedup_length_one_iff {α : Type} [DecidableEq α] (l : List α) (hl : l ≠ []) :
    (l.dedup.length == 1) = true ↔ ∀ x ∈ l, ∀ y ∈ l, x = y := by
  rw [beq_iff_eq, List.length_eq_one]
  constructor
  · rintro ⟨a, ha⟩ x hx y hy
    have hx2 : x ∈ l.dedup := List.mem_dedup.mpr hx
    have hy2 : y ∈ l.dedup := List.mem_dedup.mpr hy
    rw [ha] at hx2 hy2
    simp only [List.mem_cons, List.not_mem_nil, or_false] at hx2 hy2
    rw [hx2, hy2]
  · intro h
    obtain ⟨a, ha⟩ := List.exists_mem_of_ne_nil l hl
    have hall : ∀ x ∈ l.dedup, x = a := fun x hx => h x (List.mem_dedup.mp hx) a ha
    have hmem : a ∈ l.dedup := List.mem_dedup.mpr ha
    refine ⟨a, ?_⟩
    cases hd : l.dedup with
    | nil =>
      rw [hd] at hmem
      exact absurd hmem (List.not_mem_nil a)
    | cons b t =>
      have hb : b = a := hall b (by rw [hd]; exact List.mem_cons_self b t)
      have hnodup := l.nodup_dedup
      rw [hd] at hnodup
      cases t with
      | nil => rw [hb]
      | cons c t2 =>
        have hc : c = a := hall c (by rw [hd]; simp)
        have hbc : b ∉ c :: t2 := (List.nodup_cons.mp hnodup).1
        exact absurd (by rw [hb, hc] : b = c) (fun e => hbc (e ▸ List.mem_cons_self c t2))

/-- Claim C5: on a nonempty directory of instrument files,
`verify_song_consistency` reports `all_match = true` exactly when every file
shares one bar count, and the per-file results list every file's name with
its bar count — so any discrepant file's name and count are surfaced. -/
theorem claim_C5_consistency (files : List (List Char × List Char))
    (hne : files ≠ []) :
    ∃ r, verify_song_consistency files = some r
      ∧ (r.allMatch = true ↔ ∀ p ∈ files, ∀ q ∈ files, count_bars p.2 = count_bars q.2)
      ∧ ∀ p ∈ files, (p.1, count_bars p.2) ∈ r.fileBars := by
  cases files with
  | nil => exact absurd rfl hne
  | cons f fs =>
    refine ⟨_, rfl, ?_, ?_⟩
    · have hcs : ((f :: fs).map (fun p => (p.1, count_bars p.2))).map (fun b => b.2)
          = (f :: fs).map (fun p => count_bars p.2) := by
        rw [List.map_map]
        rfl
      show ((((f :: fs).map (fun p => (p.1, count_bars p.2))).map
          (fun b => b.2)).dedup.length == 1) = true ↔ _
      rw [hcs, dedup_length_one_iff _ (by simp)]
      constructor
      · intro h p hp q hq
        exact h (count_bars p.2) (List.mem_map_of_mem _ hp)
          (count_bars q.2) (List.mem_map_of_mem _ hq)
      · intro h x hx y hy
        obtain ⟨p, hp, rfl⟩ := List.mem_map.mp hx
        obtain ⟨q, hq, rfl⟩ := List.mem_map.mp hy
        exact h p hp q hq
    · intro p hp
      exact List.mem_map.mpr ⟨p, hp, rfl⟩

/-- Witness for claim C5: two matching two-bar files report a match; making
the second file three bars reports a mismatch, with both names and counts
listed. -/
theorem claim_C5_witness :
    (∃ r, verify_song_consistency
        [(s2l "vocal.abc", s2l "C8 | C8 |"), (s2l "bass.abc", s2l "D8 | D8 |")] = some r
      ∧ (r.allMatch = true ↔
          ∀ p ∈ [(s2l "vocal.abc", s2l "C8 | C8 |"), (s2l "bass.abc", s2l "D8 | D8 |")],
          ∀ q ∈ [(s2l "vocal.abc", s2l "C8 | C8 |"), (s2l "bass.abc", s2l "D8 | D8 |")],
            count_bars p.2 = count_bars q.2)
      ∧ ∀ p ∈ [(s2l "vocal.abc", s2l "C8 | C8 |"), (s2l "bass.abc", s2l "D8 | D8 |")],
          (p.1, count_bars p.2) ∈ r.fileBars)
    ∧ (verify_song_consistency
        [(s2l "vocal.abc", s2l "C8 | C8 |"), (s2l "bass.abc", s2l "D8 | D8 |")]).map
          (fun r => r.allMatch) = some true
    ∧ (verify_song_consistency
        [(s2l "vocal.abc", s2l "C8 | C8 |"),
         (s2l "bass.abc", s2l "D8 | D8 | D8 |")]).map
          (fun r => r.allMatch) = some false := by
  exact ⟨claim_C5_consistency _ (by decide), by decide, by decide⟩

/-- Counterexample to claim C9 as stated: the `validate` subcommand of
`abc_tools_old.py` prints the verdict but never calls `sys.exit`, so a
validation failure still exits with code 0, not 1. -/
theorem claim_C9_counterexample : abcToolsExitCode (AbcToolsCmd.validate false) = 0 := rfl

/-- Claim C9, amended: `section_tools.py` `validate` and `validate-all` exit
0 on success and 1 on validation failure; `build_song.py` exits 1 on wrong
arguments or missing inputs and 0 otherwise; `abc_tools_old.py` `count`
exits 1 on a missing input file (uncaught exception) and 0 otherwise — but
its `validate` and `verify` subcommands always exit 0, even when validation
fails or the bar counts mismatch. -/
theorem claim_C9_exit_codes :
    (∀ ok : Bool, sectionToolsValidateExitCode ok = if ok then 0 else 1)
    ∧ (∀ ok : Bool, sectionToolsValidateAllExitCode ok = if ok then 0 else 1)
    ∧ (∀ s d f : Bool, buildSongExitCode s d f = if s && d && f then 0 else 1)
    ∧ abcToolsExitCode (AbcToolsCmd.count none) = 1
    ∧ (∀ c : List Char, abcToolsExitCode (AbcToolsCmd.count (some c)) = 0)
    ∧ (∀ v : Bool, abcToolsExitCode (AbcToolsCmd.validate v) = 0)
    ∧ (∀ v : Bool, abcToolsExitCode (AbcToolsCmd.verify v) = 0) := by
  refine ⟨fun _ => rfl, fun _ => rfl, ?_, rfl, fun _ => rfl, fun _ => rfl, fun _ => rfl⟩
  intro s d f
  cases s <;> cases d <;> cases f <;> rfl
